import Mathlib

/-!
Shallow embedding of `src/micro_batch_amm/src/lib.rs` (a Solana/Anchor
micro-batch uniform-price auction program) and verification of the frozen
claims about its specification.

Modelling conventions:
* Machine integers (`u64`, `u128`, `u32`, `u16`) are modelled as `Nat`.
  Every `checked_mul` / `checked_add` / `checked_sub` of the source is
  modelled by an `Option`-returning operation that fails exactly when the
  Rust operation would return `None` (result out of the target width,
  or subtraction underflow).  Every Rust `as u64` truncating cast is
  modelled by `toU64` (reduction mod `2 ^ 64`).
* Solana account addresses (`Pubkey`) are modelled as `Nat` identifiers.
  Anchor account plumbing (PDA derivation, token vaults, signer seeds,
  rent) is out of scope per the specification; the explicit `require!`
  checks in each instruction body are modelled faithfully.
* Each instruction is a pure function from the accounts it mutates to
  `Except AmmError` of the updated accounts.  An `Except.error` result
  models the Solana transaction aborting: no account mutation persists
  (Anchor rolls back every write of a failed instruction).
* SPL token transfers are an external collaborator ("asset transfer
  service" in the specification) and are modelled as succeeding; the
  amounts handed to them are exactly the computed fill/refund values.
-/

namespace MicroBatchAmm

/-- fixed-point scale for prices (1e6), `PRICE_SCALE` in the source. -/
def PRICE_SCALE : Nat := 1000000

/-- basis points denominator (10_000), `BPS_DENOM` in the source. -/
def BPS_DENOM : Nat := 10000

/-- One past the largest `u32` value. -/
def U32 : Nat := 2 ^ 32

/-- One past the largest `u64` value. -/
def U64 : Nat := 2 ^ 64

/-- One past the largest `u128` value. -/
def U128 : Nat := 2 ^ 128

/-- Rust `as u64` truncating cast. -/
def toU64 (a : Nat) : Nat := a % U64

/-- Rust `checked_add` into a width-`w` unsigned integer. -/
def checkedAdd (w a b : Nat) : Option Nat :=
  if a + b < w then some (a + b) else none

/-- Rust `checked_mul` into a width-`w` unsigned integer. -/
def checkedMul (w a b : Nat) : Option Nat :=
  if a * b < w then some (a * b) else none

/-- Rust `checked_sub` on unsigned integers (fails on underflow). -/
def checkedSub (a b : Nat) : Option Nat :=
  if b ≤ a then some (a - b) else none

/-- The error enum `AmmError` of the source. -/
inductive AmmError where
  | MathOverflow
  | InvalidFeeBps
  | MarketPaused
  | InvalidPrice
  | InvalidAmount
  | BatchNotReady
  | InvalidRemainingAccountsLayout
  | Unauthorized
  | TooManyOrdersForUser
  | InvalidUserBatch
  | MaxNotionalPerUserExceeded
  | MaxNotionalPerBatchExceeded
  | MaxOrdersGlobalExceeded
  | DustOrderTooSmall
  | PriceMoveTooLarge
  | KeeperNotAllowed
  | OrderCancelled
  | OrderAlreadySettled
  | BatchAlreadyClosed
  | BatchNotCleared
  | BatchFullySettled
  | BatchMarketMismatch
  | BatchIdMismatch
  deriving DecidableEq, Inhabited

/-- The order side enum of the source. -/
inductive OrderSide where
  | Bid
  | Ask
  deriving DecidableEq, Inhabited

/-- The `Market` account.  `key` models the account address (a `Pubkey` in
the source); the mint/vault/bump/treasury plumbing fields are external
addressing concerns and carry no engine logic, so they are omitted. -/
structure Market where
  key : Nat
  authority : Nat
  batch_duration_slots : Nat
  last_batch_slot : Nat
  current_batch_id : Nat
  next_order_id : Nat
  fee_bps : Nat
  max_orders_per_user_per_batch : Nat
  paused : Bool
  max_notional_per_batch_quote_fp : Nat
  max_notional_per_user_per_batch_quote_fp : Nat
  batch_notional_quote_fp : Nat
  max_orders_global_per_batch : Nat
  global_orders_in_batch : Nat
  max_price_move_bps : Nat
  last_clearing_price_fp : Nat
  keeper_fee_bps : Nat
  min_slots_between_clears : Nat
  keeper_restricted : Bool
  only_keeper : Nat
  referral_fee_bps : Nat
  protocol_fee_bps : Nat
  protocol_fees_accrued_fp : Nat
  min_base_order_fp : Nat
  min_quote_order_fp : Nat
  pause_reason : Nat
  deriving DecidableEq, Inhabited

/-- The `Order` account of the source. -/
structure Order where
  user : Nat
  market : Nat
  side : OrderSide
  limit_price_fp : Nat
  amount_base_fp : Nat
  batch_id : Nat
  filled : Bool
  cancelled : Bool
  quote_deposit_fp : Nat
  id : Nat
  deriving DecidableEq, Inhabited

/-- The `UserBatchStats` account of the source (bump omitted). -/
structure UserBatchStats where
  user : Nat
  market : Nat
  batch_id : Nat
  order_count : Nat
  notional_quote_fp : Nat
  deriving DecidableEq, Inhabited

/-- The `BatchState` account of the source. -/
structure BatchState where
  market : Nat
  batch_id : Nat
  clearing_price_fp : Nat
  total_base_traded_fp : Nat
  total_quote_traded_fp : Nat
  created_slot : Nat
  cleared_slot : Nat
  settled : Bool
  keeper : Nat
  keeper_reward_quote_fp : Nat
  remaining_base_to_settle_fp : Nat
  remaining_quote_to_settle_fp : Nat
  deriving DecidableEq, Inhabited

/-- The `OrderFill` settlement receipt of the source. -/
structure OrderFill where
  order : Nat
  batch_id : Nat
  filled_base_fp : Nat
  filled_quote_fp : Nat
  refund_quote_fp : Nat
  refund_base_fp : Nat
  claimed : Bool
  deriving DecidableEq, Inhabited

/-- Extract the payload of a successful result (used only to name concrete
outputs of concrete runs in closed theorem statements). -/
def getOk {α : Type} [Inhabited α] : Except AmmError α → α
  | .ok a => a
  | .error _ => default

/-- Model of `initialize_market`: parameter validation and initial `Market` state
(lines 17-87 of the source; vault/mint wiring omitted as external). -/
def initMarket (mkey authorityKey batch_duration_slots fee_bps
    max_orders_per_user_per_batch : Nat) : Except AmmError Market :=
  if BPS_DENOM < fee_bps then .error AmmError.InvalidFeeBps
  else .ok
    { key := mkey
      authority := authorityKey
      batch_duration_slots := batch_duration_slots
      last_batch_slot := 0
      current_batch_id := 0
      next_order_id := 0
      fee_bps := fee_bps
      max_orders_per_user_per_batch := max_orders_per_user_per_batch
      paused := false
      max_notional_per_batch_quote_fp := U128 - 1
      max_notional_per_user_per_batch_quote_fp := U128 - 1
      batch_notional_quote_fp := 0
      max_orders_global_per_batch := U32 - 1
      global_orders_in_batch := 0
      max_price_move_bps := 0
      last_clearing_price_fp := 0
      keeper_fee_bps := 0
      min_slots_between_clears := batch_duration_slots
      keeper_restricted := false
      only_keeper := 0
      referral_fee_bps := 0
      protocol_fee_bps := fee_bps
      protocol_fees_accrued_fp := 0
      min_base_order_fp := 1
      min_quote_order_fp := 1
      pause_reason := 0 }

/-- Result of a successful `place_order`. -/
structure PlaceOk where
  market : Market
  stats : UserBatchStats
  order : Order
  deriving DecidableEq, Inhabited

/-- Lazy initialization of the per-user batch-stats account
(lines 131-141): a fresh account (order count 0) is bound to the caller,
the market and the current batch with zero accumulators. -/
def initStats (m : Market) (ub : UserBatchStats) (userKey : Nat) : UserBatchStats :=
  if ub.order_count = 0 then
    { user := userKey, market := m.key, batch_id := m.current_batch_id
      order_count := 0, notional_quote_fp := 0 }
  else ub

/-- Tail of `place_order` (lines 191-251): side-specific deposit
computation and persisted order.  For a bid the wide product is
recomputed and truncated to u64 (`as u64` at line 200), and a zero
truncated deposit is rejected with `InvalidAmount` (line 201). -/
def placeFinish (m3 : Market) (ub2 : UserBatchStats) (userKey : Nat)
    (side : OrderSide) (limit_price_fp amount_base_fp order_id : Nat) :
    Except AmmError PlaceOk :=
  match side with
  | OrderSide.Bid =>
    match checkedMul U128 amount_base_fp limit_price_fp with
    | none => .error AmmError.MathOverflow
    | some prod2 =>
      let quote_needed := toU64 (prod2 / PRICE_SCALE)
      if quote_needed = 0 then .error AmmError.InvalidAmount
      else
        .ok { market := m3
              stats := ub2
              order :=
                { user := userKey, market := m3.key, side := side
                  limit_price_fp := limit_price_fp
                  amount_base_fp := amount_base_fp
                  batch_id := m3.current_batch_id
                  filled := false, cancelled := false
                  quote_deposit_fp := quote_needed
                  id := order_id } }
  | OrderSide.Ask =>
    .ok { market := m3
          stats := ub2
          order :=
            { user := userKey, market := m3.key, side := side
              limit_price_fp := limit_price_fp
              amount_base_fp := amount_base_fp
              batch_id := m3.current_batch_id
              filled := false, cancelled := false
              quote_deposit_fp := 0
              id := order_id } }

/-- Model of `place_order` (lines 96-251 of the source).  `ub` is the
`user_batch_stats` account supplied for the caller (`init_if_needed`: a
fresh account has `order_count = 0`).  The SPL deposit transfer is the
external asset-transfer collaborator and is modelled as succeeding. -/
def placeOrder (m : Market) (ub : UserBatchStats) (userKey : Nat)
    (side : OrderSide) (limit_price_fp amount_base_fp : Nat) :
    Except AmmError PlaceOk :=
  if m.paused then .error AmmError.MarketPaused
  else if limit_price_fp = 0 then .error AmmError.InvalidPrice
  else if amount_base_fp = 0 then .error AmmError.InvalidAmount
  else
    match checkedMul U128 amount_base_fp limit_price_fp with
    | none => .error AmmError.MathOverflow
    | some prod =>
      let order_notional_quote_fp := prod / PRICE_SCALE
      -- dust guards
      if side = OrderSide.Bid ∧ order_notional_quote_fp < m.min_quote_order_fp then
        .error AmmError.DustOrderTooSmall
      else if side = OrderSide.Ask ∧ amount_base_fp < m.min_base_order_fp then
        .error AmmError.DustOrderTooSmall
      else
        -- per-user-per-batch stats: initialize on first use, else validate
        let init := ub.order_count = 0
        if ¬ init ∧ ub.user ≠ userKey then .error AmmError.InvalidUserBatch
        else if ¬ init ∧ ub.market ≠ m.key then .error AmmError.InvalidUserBatch
        else if ¬ init ∧ ub.batch_id ≠ m.current_batch_id then .error AmmError.InvalidUserBatch
        else
          let ub0 := initStats m ub userKey
          match checkedAdd U128 ub0.notional_quote_fp order_notional_quote_fp with
          | none => .error AmmError.MathOverflow
          | some new_user_notional =>
            if m.max_notional_per_user_per_batch_quote_fp < new_user_notional then
              .error AmmError.MaxNotionalPerUserExceeded
            else
              let ub1 := { ub0 with notional_quote_fp := new_user_notional }
              if ¬ (ub1.order_count < m.max_orders_per_user_per_batch) then
                .error AmmError.TooManyOrdersForUser
              else
                match checkedAdd U32 ub1.order_count 1 with
                | none => .error AmmError.MathOverflow
                | some cnt =>
                  let ub2 := { ub1 with order_count := cnt }
                  match checkedAdd U128 m.batch_notional_quote_fp order_notional_quote_fp with
                  | none => .error AmmError.MathOverflow
                  | some new_batch_notional =>
                    if m.max_notional_per_batch_quote_fp < new_batch_notional then
                      .error AmmError.MaxNotionalPerBatchExceeded
                    else
                      let m1 := { m with batch_notional_quote_fp := new_batch_notional }
                      if ¬ (m1.global_orders_in_batch < m1.max_orders_global_per_batch) then
                        .error AmmError.MaxOrdersGlobalExceeded
                      else
                        match checkedAdd U32 m1.global_orders_in_batch 1 with
                        | none => .error AmmError.MathOverflow
                        | some g =>
                          let m2 := { m1 with global_orders_in_batch := g }
                          let order_id := m2.next_order_id
                          match checkedAdd U64 m2.next_order_id 1 with
                          | none => .error AmmError.MathOverflow
                          | some nid =>
                            placeFinish { m2 with next_order_id := nid }
                              ub2 userKey side limit_price_fp amount_base_fp order_id

/-- The in-memory `TempOrder` helper used by `clear_batch` (the
`account_index` field only locates accounts for later CPI and carries no
engine logic, so it is omitted). -/
structure TempOrder where
  side : OrderSide
  limit_price_fp : Nat
  original_base_fp : Nat
  remaining_base_fp : Nat
  quote_deposit_fp : Nat
  deriving DecidableEq, Inhabited

/-- Eligibility filter of `clear_batch` (lines 331-338): belongs to this
market, belongs to the batch being cleared, non-zero base amount, not
cancelled. -/
def eligible (mkey batchId : Nat) (o : Order) : Bool :=
  o.market = mkey && o.batch_id = batchId && o.amount_base_fp ≠ 0 && !o.cancelled

/-- Collection pass of `clear_batch` (lines 319-354): the caller-supplied
orders, filtered for eligibility, in supplied order. -/
def collectOrders (mkey batchId : Nat) (orders : List Order) : List TempOrder :=
  (orders.filter (eligible mkey batchId)).map fun o =>
    { side := o.side, limit_price_fp := o.limit_price_fp
      original_base_fp := o.amount_base_fp, remaining_base_fp := o.amount_base_fp
      quote_deposit_fp := o.quote_deposit_fp }

/-- Candidate clearing prices: distinct limit prices of eligible orders in
first-encounter order (lines 349-351). -/
def candidatePrices (ts : List TempOrder) : List Nat :=
  ts.foldl (fun acc t => if t.limit_price_fp ∈ acc then acc else acc ++ [t.limit_price_fp]) []

/-- The volume pass of the price-discovery loop (lines 395-417): one
forward scan accumulating bid and ask volume at price `p` with checked
u128 additions. -/
def volumesAux (p : Nat) : List TempOrder → Nat → Nat → Except AmmError (Nat × Nat)
  | [], bv, av => .ok (bv, av)
  | t :: ts, bv, av =>
    match t.side with
    | OrderSide.Bid =>
      if p ≤ t.limit_price_fp then
        match checkedAdd U128 bv t.original_base_fp with
        | none => .error AmmError.MathOverflow
        | some bv2 => volumesAux p ts bv2 av
      else volumesAux p ts bv av
    | OrderSide.Ask =>
      if t.limit_price_fp ≤ p then
        match checkedAdd U128 av t.original_base_fp with
        | none => .error AmmError.MathOverflow
        | some av2 => volumesAux p ts bv av2
      else volumesAux p ts bv av

/-- The quantity `traded(p) = min(bid_volume(p), ask_volume(p))` as computed by the
source loop (line 418). -/
def tradedAt (ts : List TempOrder) (p : Nat) : Except AmmError Nat :=
  match volumesAux p ts 0 0 with
  | .error e => .error e
  | .ok (bv, av) => .ok (min bv av)

/-- Overflow-free restatement of the bid volume at price `p`: total
original base amount of bids with limit `≥ p`. -/
def bidVolume : List TempOrder → Nat → Nat
  | [], _ => 0
  | t :: ts, p =>
    (match t.side with
     | OrderSide.Bid => if p ≤ t.limit_price_fp then t.original_base_fp else 0
     | OrderSide.Ask => 0) + bidVolume ts p

/-- Overflow-free restatement of the ask volume at price `p`: total
original base amount of asks with limit `≤ p`. -/
def askVolume : List TempOrder → Nat → Nat
  | [], _ => 0
  | t :: ts, p =>
    (match t.side with
     | OrderSide.Bid => 0
     | OrderSide.Ask => if t.limit_price_fp ≤ p then t.original_base_fp else 0) + askVolume ts p

/-- Overflow-free traded volume at price `p`. -/
def tradedVol (ts : List TempOrder) (p : Nat) : Nat :=
  min (bidVolume ts p) (askVolume ts p)

/-- The clearing-price search loop (lines 392-423): fold over the
candidate prices keeping `(best_price, best_traded)`, updating only on a
strict improvement (so the earliest-encountered candidate wins ties). -/
def findClearing (ts : List TempOrder) : List Nat → Nat → Nat → Except AmmError (Nat × Nat)
  | [], bp, bt => .ok (bp, bt)
  | p :: ps, bp, bt =>
    match tradedAt ts p with
    | .error e => .error e
    | .ok t => if bt < t then findClearing ts ps p t else findClearing ts ps bp bt

/-- Stable insertion of `t` behind every earlier element that compares
strictly before it under `lt` — models the stability of Rust `sort_by`. -/
def stableInsert (lt : TempOrder → TempOrder → Bool) (t : TempOrder) :
    List TempOrder → List TempOrder
  | [] => [t]
  | u :: us => if lt t u then t :: u :: us else u :: stableInsert lt t us

/-- Stable sort by comparator `lt` (models Rust stable `sort_by`). -/
def stableSort (lt : TempOrder → TempOrder → Bool) (ts : List TempOrder) : List TempOrder :=
  ts.foldl (fun acc t => stableInsert lt t acc) []

/-- Bids sorted by limit price descending, stable (lines 489-493). -/
def sortBids (ts : List TempOrder) : List TempOrder :=
  stableSort (fun a b => b.limit_price_fp < a.limit_price_fp) ts

/-- Asks sorted by limit price ascending, stable (lines 494-498). -/
def sortAsks (ts : List TempOrder) : List TempOrder :=
  stableSort (fun a b => a.limit_price_fp < b.limit_price_fp) ts

/-- The matching pass of `clear_batch` (lines 500-578), walking the
sorted bid and ask lists with two cursors.  The Rust `while` loop
terminates because each iteration either advances a cursor or strictly
decreases the remaining base of both head orders; `fuel` bounds the
iteration count and `clear_batch` below supplies a fuel that dominates
it (one plus the sum over both lists of `1 + remaining_base`), so the
fuel-exhaustion branch is unreachable from `clearBatch`. -/
def matchLoop (P : Nat) : Nat → List TempOrder → List TempOrder → Nat → Nat →
    Except AmmError (Nat × Nat)
  | 0, _, _, _, _ => .error AmmError.MathOverflow
  | _ + 1, [], _, tb, tq => .ok (tb, tq)
  | _ + 1, _ :: _, [], tb, tq => .ok (tb, tq)
  | fuel + 1, b :: bs, a :: as_, tb, tq =>
    if b.limit_price_fp < P ∨ P < a.limit_price_fp then .ok (tb, tq)
    else if b.remaining_base_fp = 0 then matchLoop P fuel bs (a :: as_) tb tq
    else if a.remaining_base_fp = 0 then matchLoop P fuel (b :: bs) as_ tb tq
    else
      let trade0 := min b.remaining_base_fp a.remaining_base_fp
      if trade0 = 0 then .ok (tb, tq)
      else
        let max_base_affordable := b.quote_deposit_fp * PRICE_SCALE / max P 1
        let trade := min trade0 max_base_affordable
        if trade = 0 then matchLoop P fuel bs (a :: as_) tb tq
        else
          match checkedMul U128 trade P with
          | none => .error AmmError.MathOverflow
          | some prod =>
            let quote_gross := prod / PRICE_SCALE
            if quote_gross = 0 then .ok (tb, tq)
            else
              match checkedSub b.remaining_base_fp trade with
              | none => .error AmmError.MathOverflow
              | some brem =>
                match checkedSub a.remaining_base_fp trade with
                | none => .error AmmError.MathOverflow
                | some arem =>
                  match checkedAdd U128 tb trade with
                  | none => .error AmmError.MathOverflow
                  | some tb2 =>
                    match checkedAdd U128 tq quote_gross with
                    | none => .error AmmError.MathOverflow
                    | some tq2 =>
                      let bs2 := if brem = 0 then bs else { b with remaining_base_fp := brem } :: bs
                      let as2 := if arem = 0 then as_ else { a with remaining_base_fp := arem } :: as_
                      matchLoop P fuel bs2 as2 tb2 tq2

/-- Fuel measure dominating the iteration count of `matchLoop`. -/
def moSum : List TempOrder → Nat
  | [] => 0
  | t :: ts => 1 + t.remaining_base_fp + moSum ts

/-- Result of a successful `clear_batch`. -/
structure ClearOk where
  market : Market
  batch_state : BatchState
  deriving DecidableEq, Inhabited

/-- The "roll the batch with clearing price 0" exit of `clear_batch`:
identical blocks at lines 356-389 (no eligible orders) and 425-457 (no
crossing). -/
def rollBatch0 (m : Market) (slot authorityKey : Nat) : Except AmmError ClearOk :=
  match checkedAdd U64 m.current_batch_id 1 with
  | none => .error AmmError.MathOverflow
  | some nb =>
    .ok { market :=
            { m with last_batch_slot := slot, current_batch_id := nb
                     batch_notional_quote_fp := 0, global_orders_in_batch := 0 }
          batch_state :=
            { market := m.key, batch_id := m.current_batch_id
              clearing_price_fp := 0
              total_base_traded_fp := 0, total_quote_traded_fp := 0
              created_slot := m.last_batch_slot, cleared_slot := slot
              settled := true
              keeper := authorityKey, keeper_reward_quote_fp := 0
              remaining_base_to_settle_fp := 0, remaining_quote_to_settle_fp := 0 } }

/-- The price-band circuit breaker of `clear_batch` (lines 461-477).
Note that the source compares `delta_bps as u64` — a truncating cast of
the u128 quotient — against the configured limit. -/
def bandCheck (m : Market) (bp : Nat) : Except AmmError Unit :=
  if 0 < m.last_clearing_price_fp ∧ 0 < m.max_price_move_bps then
    let high := if m.last_clearing_price_fp ≤ bp then bp else m.last_clearing_price_fp
    let low := if m.last_clearing_price_fp ≤ bp then m.last_clearing_price_fp else bp
    match checkedMul U128 (high - low) BPS_DENOM with
    | none => .error AmmError.MathOverflow
    | some prod =>
      if toU64 (prod / m.last_clearing_price_fp) ≤ m.max_price_move_bps then .ok ()
      else .error AmmError.PriceMoveTooLarge
  else .ok ()

/-- Final state update of a crossing `clear_batch` (lines 580-624):
keeper-reward accounting, batch roll with accumulator reset, and the
`BatchState` snapshot for the settlement phase. -/
def clearFinish (m : Market) (slot authorityKey bp tb tq : Nat) :
    Except AmmError ClearOk :=
  match
    (if 0 < m.keeper_fee_bps then
      match checkedMul U128 tq m.keeper_fee_bps with
      | none => Except.error AmmError.MathOverflow
      | some p => Except.ok (p / BPS_DENOM)
    else Except.ok 0 : Except AmmError Nat) with
  | .error e => .error e
  | .ok kr =>
    match checkedAdd U64 m.current_batch_id 1 with
    | none => .error AmmError.MathOverflow
    | some nb =>
      .ok { market :=
              { m with last_batch_slot := slot, current_batch_id := nb
                       batch_notional_quote_fp := 0
                       global_orders_in_batch := 0
                       last_clearing_price_fp := bp }
            batch_state :=
              { market := m.key, batch_id := m.current_batch_id
                clearing_price_fp := bp
                total_base_traded_fp := toU64 tb
                total_quote_traded_fp := toU64 tq
                created_slot := m.last_batch_slot, cleared_slot := slot
                settled := tb == 0
                keeper := authorityKey, keeper_reward_quote_fp := kr
                remaining_base_to_settle_fp := tb
                remaining_quote_to_settle_fp := tq } }

/-- Model of `clear_batch` (lines 259-624).  `orders` is the caller-supplied list
of candidate orders (the first account of each remaining-accounts
triplet; the per-order ATA accounts are transfer plumbing).  `slot` is
the clock value. -/
def clearBatch (m : Market) (slot authorityKey : Nat) (orders : List Order) :
    Except AmmError ClearOk :=
  if m.paused then .error AmmError.MarketPaused
  else if m.keeper_restricted ∧ m.only_keeper ≠ authorityKey then
    .error AmmError.KeeperNotAllowed
  else if slot < m.last_batch_slot + m.batch_duration_slots then
    .error AmmError.BatchNotReady
  else if slot < m.last_batch_slot + m.min_slots_between_clears then
    .error AmmError.BatchNotReady
  else
    let ts := collectOrders m.key m.current_batch_id orders
    if ts.isEmpty then rollBatch0 m slot authorityKey
    else
      match findClearing ts (candidatePrices ts) 0 0 with
      | .error e => .error e
      | .ok (bp, bt) =>
        if bt = 0 ∨ bp = 0 then rollBatch0 m slot authorityKey
        else
          match bandCheck m bp with
          | .error e => .error e
          | .ok _ =>
            let bids := sortBids (ts.filter fun t => t.side = OrderSide.Bid)
            let asks := sortAsks (ts.filter fun t => t.side = OrderSide.Ask)
            match matchLoop bp (moSum bids + moSum asks + 1) bids asks 0 0 with
            | .error e => .error e
            | .ok (tb, tq) => clearFinish m slot authorityKey bp tb tq

/-- The crossing test of `settle_order` (lines 659-662): a bid is crossed
if its limit is at least the clearing price, an ask if its limit is at
most the clearing price. -/
def crossedAt (side : OrderSide) (limit price : Nat) : Bool :=
  match side with
  | OrderSide.Bid => price ≤ limit
  | OrderSide.Ask => limit ≤ price

/-- Result of a successful `settle_order`. -/
structure SettleOk where
  market : Market
  batch_state : BatchState
  order : Order
  order_fill : OrderFill
  deriving DecidableEq, Inhabited

/-- The side-specific fill/refund quadruple
`(filled_base, filled_quote, refund_base, refund_quote)` of the crossed
branch of `settle_order` (lines 703-718); the bid refund is the checked
subtraction `deposit - gross_quote`. -/
def settleFills (o : Order) (gross_quote : Nat) :
    Except AmmError (Nat × Nat × Nat × Nat) :=
  match o.side with
  | OrderSide.Bid =>
    match checkedSub o.quote_deposit_fp gross_quote with
    | none => .error AmmError.MathOverflow
    | some rq => .ok (o.amount_base_fp, gross_quote, 0, rq)
  | OrderSide.Ask => .ok (o.amount_base_fp, gross_quote, 0, 0)

/-- Protocol-fee accrual of `settle_order` (lines 734-745): the updated
`protocol_fees_accrued_fp`. -/
def settleFee (m : Market) (filled_quote : Nat) : Except AmmError Nat :=
  if 0 < m.protocol_fee_bps then
    match checkedMul U128 filled_quote m.protocol_fee_bps with
    | none => .error AmmError.MathOverflow
    | some p =>
      match checkedAdd U128 m.protocol_fees_accrued_fp (p / BPS_DENOM) with
      | none => .error AmmError.MathOverflow
      | some acc => .ok acc
  else .ok m.protocol_fees_accrued_fp

/-- The crossed branch of `settle_order` (lines 686-809): all-or-nothing
settlement constrained by the remaining batch budget, receipt written
with `as u64` casts. -/
def settleCrossed (m : Market) (bs : BatchState) (o : Order) (okey : Nat) :
    Except AmmError SettleOk :=
  if bs.remaining_base_to_settle_fp < o.amount_base_fp then
    .error AmmError.BatchFullySettled
  else
    match checkedMul U128 o.amount_base_fp bs.clearing_price_fp with
    | none => .error AmmError.MathOverflow
    | some prod =>
      let gross_quote := prod / PRICE_SCALE
      if ¬ (gross_quote ≤ o.quote_deposit_fp ∨ o.side = OrderSide.Ask) then
        .error AmmError.MathOverflow
      else
        match settleFills o gross_quote with
        | .error e => .error e
        | .ok (filled_base, filled_quote, refund_base, refund_quote) =>
          match checkedSub bs.remaining_base_to_settle_fp filled_base with
          | none => .error AmmError.MathOverflow
          | some rb2 =>
            match checkedSub bs.remaining_quote_to_settle_fp filled_quote with
            | none => .error AmmError.MathOverflow
            | some rq2 =>
              match settleFee m filled_quote with
              | .error e => .error e
              | .ok acc =>
                .ok { market := { m with protocol_fees_accrued_fp := acc }
                      batch_state :=
                        { bs with remaining_base_to_settle_fp := rb2
                                  remaining_quote_to_settle_fp := rq2
                                  settled := if rb2 = 0 then true else bs.settled }
                      order := { o with filled := true }
                      order_fill :=
                        { order := okey, batch_id := bs.batch_id
                          filled_base_fp := toU64 filled_base
                          filled_quote_fp := toU64 filled_quote
                          refund_quote_fp := toU64 refund_quote
                          refund_base_fp := toU64 refund_base
                          claimed := true } }

/-- The not-crossed branch of `settle_order` (lines 810-859): pure refund
of the original deposit, no fill, shared state untouched. -/
def settleRefund (m : Market) (bs : BatchState) (o : Order) (okey : Nat) :
    SettleOk :=
  let refunds : Nat × Nat :=
    match o.side with
    | OrderSide.Bid => (0, o.quote_deposit_fp)
    | OrderSide.Ask => (o.amount_base_fp, 0)
  { market := m
    batch_state := bs
    order := { o with filled := true }
    order_fill :=
      { order := okey, batch_id := bs.batch_id
        filled_base_fp := 0, filled_quote_fp := 0
        refund_quote_fp := toU64 refunds.2
        refund_base_fp := toU64 refunds.1
        claimed := true } }

/-- Model of `settle_order` (lines 632-886).  `okey` models the order account
address written into the receipt.  The payout/refund SPL transfers are
the external asset-transfer collaborator (modelled as succeeding); the
amounts handed to them are exactly the receipt fields. -/
def settleOrder (m : Market) (bs : BatchState) (o : Order) (f : OrderFill)
    (okey : Nat) : Except AmmError SettleOk :=
  if m.paused then .error AmmError.MarketPaused
  else if bs.market ≠ m.key then .error AmmError.BatchMarketMismatch
  else if bs.batch_id ≠ o.batch_id then .error AmmError.BatchIdMismatch
  else if bs.clearing_price_fp = 0 then .error AmmError.BatchNotCleared
  else if o.cancelled then .error AmmError.OrderCancelled
  else if f.claimed then .error AmmError.OrderAlreadySettled
  else if crossedAt o.side o.limit_price_fp bs.clearing_price_fp then
    settleCrossed m bs o okey
  else .ok (settleRefund m bs o okey)

/-- Model of `cancel_order` (lines 892-962).  `slot` is the clock value; the
refund transfer is external and modelled as succeeding. -/
def cancelOrder (m : Market) (o : Order) (slot : Nat) :
    Except AmmError (Market × Order) :=
  if m.paused then .error AmmError.MarketPaused
  else if o.cancelled then .error AmmError.OrderCancelled
  else if o.filled then .error AmmError.OrderAlreadySettled
  else if ¬ (slot < m.last_batch_slot + m.batch_duration_slots) then
    .error AmmError.BatchAlreadyClosed
  else .ok (m, { o with cancelled := true })

/-- Model of `set_params` (lines 981-1027), parameters in source order. -/
def setParams (m : Market) (callerKey new_fee_bps
    max_notional_per_batch_quote_fp max_notional_per_user_per_batch_quote_fp
    max_orders_global_per_batch max_price_move_bps keeper_fee_bps
    min_base_order_fp min_quote_order_fp protocol_fee_bps referral_fee_bps : Nat) :
    Except AmmError Market :=
  if m.authority ≠ callerKey then .error AmmError.Unauthorized
  else if BPS_DENOM < new_fee_bps then .error AmmError.InvalidFeeBps
  else if new_fee_bps < protocol_fee_bps then .error AmmError.InvalidFeeBps
  else if new_fee_bps < referral_fee_bps then .error AmmError.InvalidFeeBps
  else .ok
    { m with fee_bps := new_fee_bps
             max_notional_per_batch_quote_fp := max_notional_per_batch_quote_fp
             max_notional_per_user_per_batch_quote_fp :=
               max_notional_per_user_per_batch_quote_fp
             max_orders_global_per_batch := max_orders_global_per_batch
             max_price_move_bps := max_price_move_bps
             keeper_fee_bps := keeper_fee_bps
             min_base_order_fp := min_base_order_fp
             min_quote_order_fp := min_quote_order_fp
             protocol_fee_bps := protocol_fee_bps
             referral_fee_bps := referral_fee_bps }

/-- One settlement attempt against shared state: a failed attempt leaves
the state unchanged (the transaction rolls back). -/
structure SettleReq where
  order : Order
  fill : OrderFill
  okey : Nat
  deriving DecidableEq, Inhabited

/-- Apply one settlement attempt to the shared `(Market, BatchState)`
pair; failure leaves it unchanged. -/
def settleStep (s : Market × BatchState) (r : SettleReq) : Market × BatchState :=
  match settleOrder s.1 s.2 r.order r.fill r.okey with
  | .ok out => (out.market, out.batch_state)
  | .error _ => s

/-- A sequence of settlement attempts in submission order. -/
def settleSeq (s : Market × BatchState) (rs : List SettleReq) : Market × BatchState :=
  rs.foldl settleStep s

/-- One admission attempt: the order parameters together with the user
batch-stats account supplied for the caller. -/
structure PlaceReq where
  stats : UserBatchStats
  user : Nat
  side : OrderSide
  limit_price_fp : Nat
  amount_base_fp : Nat
  deriving DecidableEq, Inhabited

/-- Apply one admission attempt to the market; failure leaves it
unchanged (the transaction rolls back). -/
def placeStep (m : Market) (r : PlaceReq) : Market :=
  match placeOrder m r.stats r.user r.side r.limit_price_fp r.amount_base_fp with
  | .ok out => out.market
  | .error _ => m

/-- A sequence of admission attempts in submission order. -/
def placeSeq (m : Market) (rs : List PlaceReq) : Market :=
  rs.foldl placeStep m

/-! ### Concrete instances used by witnesses and counterexamples -/

/-- A plain unpaused market with generous caps. -/
def mS : Market := {
  key := 1
  authority := 7
  batch_duration_slots := 10
  last_batch_slot := 0
  current_batch_id := 0
  next_order_id := 0
  fee_bps := 30
  max_orders_per_user_per_batch := 10
  paused := false
  max_notional_per_batch_quote_fp := 10 ^ 30
  max_notional_per_user_per_batch_quote_fp := 10 ^ 30
  batch_notional_quote_fp := 0
  max_orders_global_per_batch := 100
  global_orders_in_batch := 0
  max_price_move_bps := 0
  last_clearing_price_fp := 0
  keeper_fee_bps := 0
  min_slots_between_clears := 10
  keeper_restricted := false
  only_keeper := 0
  referral_fee_bps := 0
  protocol_fee_bps := 30
  protocol_fees_accrued_fp := 0
  min_base_order_fp := 1
  min_quote_order_fp := 1
  pause_reason := 0 }

/-- A bid at price 100 (fp), 10 base units, with the deposit
`place_order` would compute (`10 * 100e6 / 1e6 = 1000`). -/
def bidS : Order := {
  user := 2
  market := 1
  side := OrderSide.Bid
  limit_price_fp := 100000000
  amount_base_fp := 10
  batch_id := 0
  filled := false
  cancelled := false
  quote_deposit_fp := 1000
  id := 0 }

/-- An ask at price 90 (fp), 10 base units. -/
def askS : Order := {
  user := 3
  market := 1
  side := OrderSide.Ask
  limit_price_fp := 90000000
  amount_base_fp := 10
  batch_id := 0
  filled := false
  cancelled := false
  quote_deposit_fp := 0
  id := 1 }

/-- A fresh (unclaimed) `OrderFill` account. -/
def fFresh : OrderFill := {
  order := 0
  batch_id := 0
  filled_base_fp := 0
  filled_quote_fp := 0
  refund_quote_fp := 0
  refund_base_fp := 0
  claimed := false }

/-- Result of clearing the crossing pair: price 100e6, 10 base / 1000
quote traded. -/
def rS : ClearOk := getOk (clearBatch mS 10 7 [bidS, askS])

/-- Result of settling the bid against the cleared batch. -/
def sS : SettleOk := getOk (settleOrder rS.market rS.batch_state bidS fFresh 40)

/-- Result of clearing a batch containing only the bid: no cross, the
batch rolls with clearing price 0. -/
def r1 : ClearOk := getOk (clearBatch mS 10 7 [bidS])

/-- Market for the price-band truncation scenario: prior clearing price
1, band 1 bps, timing gates open. -/
def m9 : Market := { mS with
  last_clearing_price_fp := 1
  max_price_move_bps := 1
  batch_duration_slots := 0
  min_slots_between_clears := 0 }

/-- Bid at the astronomically moved price `2 ^ 60 + 1`. -/
def o9b : Order := { bidS with
  limit_price_fp := 2 ^ 60 + 1
  amount_base_fp := 1
  quote_deposit_fp := 2 ^ 60 }

/-- Ask at the same moved price. -/
def o9a : Order := { askS with
  limit_price_fp := 2 ^ 60 + 1
  amount_base_fp := 1 }

/-- Result of clearing the moved-price pair against `m9`. -/
def r9 : ClearOk := getOk (clearBatch m9 0 5 [o9b, o9a])

/-- Market whose batch 0 has already been cleared (current batch is 1,
whose window opened at slot 100). -/
def mC7 : Market := { mS with
  current_batch_id := 1
  last_batch_slot := 100 }

/-- A still-open order left over from batch 0 of `mC7`. -/
def oC7 : Order := { askS with batch_id := 0 }

/-- Result of cancelling the stale order while the current window is
open. -/
def pC7 : Market × Order := getOk (cancelOrder mC7 oC7 105)

/-- Result of `set_params` with total fee 100 bps, protocol fee 100 bps
and referral fee 100 bps — each field individually passes the per-field
check. -/
def m8 : Market := getOk (setParams mS 7 100 0 0 0 0 0 0 0 100 100)

/-- Market with the quote dust floor configured to 0. -/
def m10 : Market := { mS with min_quote_order_fp := 0 }

/-- A fresh per-user batch-stats account. -/
def ub0 : UserBatchStats := {
  user := 0
  market := 0
  batch_id := 0
  order_count := 0
  notional_quote_fp := 0 }

/-- Result of a plain market bootstrap. -/
def mInit : Market := getOk (initMarket 1 7 10 30 10)

/-- Result of a `set_params` update whose protocol and referral fees fit
under the new total. -/
def m8b : Market := getOk (setParams mS 7 100 0 0 0 0 0 0 0 50 20)

/-- A settlement request for the bid of the standard scenario. -/
def reqS : SettleReq := { order := bidS, fill := fFresh, okey := 40 }

/-- An admission request reusing the fresh stats account. -/
def reqP : PlaceReq := {
  stats := ub0
  user := 2
  side := OrderSide.Ask
  limit_price_fp := 90000000
  amount_base_fp := 10 }

/-- Result of a successful concrete admission. -/
def pS : PlaceOk := getOk (placeOrder mS ub0 2 OrderSide.Ask 90000000 10)

/-- Result of a successful concrete bid admission (price 600 fp,
amount 2, deposit 1200). -/
def pS10 : PlaceOk := getOk (placeOrder mS ub0 2 OrderSide.Bid 600000000 2)

/-- An admission request that fails the dust check on `mS`
(bid notional `1 * 1 / 1e6 = 0` is below the floor of 1). -/
def reqFail : PlaceReq := {
  stats := ub0
  user := 2
  side := OrderSide.Bid
  limit_price_fp := 1
  amount_base_fp := 1 }

/-! ### Helper lemmas -/

instance {ε α : Type} [DecidableEq ε] [DecidableEq α] : DecidableEq (Except ε α) :=
  fun a b =>
    match a, b with
    | .ok x, .ok y =>
      match decEq x y with
      | isTrue h => isTrue (by rw [h])
      | isFalse h => isFalse (fun he => h (Except.ok.inj he))
    | .error e, .error f =>
      match decEq e f with
      | isTrue h => isTrue (by rw [h])
      | isFalse h => isFalse (fun he => h (Except.error.inj he))
    | .ok _, .error _ => isFalse (fun he => Except.noConfusion he)
    | .error _, .ok _ => isFalse (fun he => Except.noConfusion he)

theorem checkedAdd_some {w a b c : Nat} (h : checkedAdd w a b = some c) :
    c = a + b ∧ a + b < w := by
  unfold checkedAdd at h
  split at h
  · exact ⟨(Option.some.inj h).symm, by assumption⟩
  · exact Option.noConfusion h

theorem checkedMul_some {w a b c : Nat} (h : checkedMul w a b = some c) :
    c = a * b ∧ a * b < w := by
  unfold checkedMul at h
  split at h
  · exact ⟨(Option.some.inj h).symm, by assumption⟩
  · exact Option.noConfusion h

theorem checkedSub_some {a b c : Nat} (h : checkedSub a b = some c) :
    c = a - b ∧ b ≤ a := by
  unfold checkedSub at h
  split at h
  · exact ⟨(Option.some.inj h).symm, by assumption⟩
  · exact Option.noConfusion h

theorem volumesAux_ok {p : Nat} :
    ∀ {ts : List TempOrder} {bv av BV AV : Nat},
      volumesAux p ts bv av = .ok (BV, AV) →
      BV = bv + bidVolume ts p ∧ AV = av + askVolume ts p := by
  intro ts
  induction ts with
  | nil =>
    intro bv av BV AV h
    unfold volumesAux at h
    have h2 := Except.ok.inj h
    simp [bidVolume, askVolume]
    exact ⟨(congrArg Prod.fst h2).symm, (congrArg Prod.snd h2).symm⟩
  | cons t ts ih =>
    intro bv av BV AV h
    unfold volumesAux at h
    cases hs : t.side with
    | Bid =>
      rw [hs] at h
      by_cases hp : p ≤ t.limit_price_fp
      · rw [if_pos hp] at h
        cases hca : checkedAdd U128 bv t.original_base_fp with
        | none => rw [hca] at h; exact Except.noConfusion h
        | some bv2 =>
          rw [hca] at h
          obtain ⟨hbv2, _⟩ := checkedAdd_some hca
          obtain ⟨h1, h2⟩ := ih h
          subst hbv2
          constructor
          · rw [h1]; simp [bidVolume, hs, if_pos hp]; omega
          · rw [h2]; simp [askVolume, hs]
      · rw [if_neg hp] at h
        obtain ⟨h1, h2⟩ := ih h
        constructor
        · rw [h1]; simp [bidVolume, hs, if_neg hp]
        · rw [h2]; simp [askVolume, hs]
    | Ask =>
      rw [hs] at h
      by_cases hp : t.limit_price_fp ≤ p
      · rw [if_pos hp] at h
        cases hca : checkedAdd U128 av t.original_base_fp with
        | none => rw [hca] at h; exact Except.noConfusion h
        | some av2 =>
          rw [hca] at h
          obtain ⟨hav2, _⟩ := checkedAdd_some hca
          obtain ⟨h1, h2⟩ := ih h
          subst hav2
          constructor
          · rw [h1]; simp [bidVolume, hs]
          · rw [h2]; simp [askVolume, hs, if_pos hp]; omega
      · rw [if_neg hp] at h
        obtain ⟨h1, h2⟩ := ih h
        constructor
        · rw [h1]; simp [bidVolume, hs]
        · rw [h2]; simp [askVolume, hs, if_neg hp]

theorem tradedAt_ok {ts : List TempOrder} {p t : Nat}
    (h : tradedAt ts p = .ok t) : t = tradedVol ts p := by
  unfold tradedAt at h
  cases hv : volumesAux p ts 0 0 with
  | error e => rw [hv] at h; exact Except.noConfusion h
  | ok pr =>
    rw [hv] at h
    obtain ⟨bv, av⟩ := pr
    obtain ⟨h1, h2⟩ := volumesAux_ok hv
    simp at h1 h2
    subst h1; subst h2
    unfold tradedVol
    exact (Except.ok.inj h).symm

theorem findClearing_spec {ts : List TempOrder} :
    ∀ {cands : List Nat} {bp bt bp' bt' : Nat},
      findClearing ts cands bp bt = .ok (bp', bt') →
      bt ≤ bt' ∧ (∀ p ∈ cands, tradedVol ts p ≤ bt') ∧
        ((bt' = bt ∧ bp' = bp) ∨
          (bt < bt' ∧
            cands.find? (fun p => tradedVol ts p == bt') = some bp')) := by
  intro cands
  induction cands with
  | nil =>
    intro bp bt bp' bt' h
    unfold findClearing at h
    have h2 := Except.ok.inj h
    have hbp : bp' = bp := (congrArg Prod.fst h2).symm
    have hbt : bt' = bt := (congrArg Prod.snd h2).symm
    subst hbp; subst hbt
    exact ⟨Nat.le_refl _, by simp, Or.inl ⟨rfl, rfl⟩⟩
  | cons p ps ih =>
    intro bp bt bp' bt' h
    unfold findClearing at h
    cases hta : tradedAt ts p with
    | error e => rw [hta] at h; exact Except.noConfusion h
    | ok t =>
      rw [hta] at h
      dsimp only at h
      have ht : t = tradedVol ts p := tradedAt_ok hta
      by_cases hlt : bt < t
      · rw [if_pos hlt] at h
        obtain ⟨hle, hall, hdisj⟩ := ih h
        have hbtlt : bt < bt' := Nat.lt_of_lt_of_le hlt hle
        refine ⟨Nat.le_of_lt hbtlt, ?_, Or.inr ⟨hbtlt, ?_⟩⟩
        · intro q hq
          rcases List.mem_cons.mp hq with hq | hq
          · subst hq; rw [← ht]; exact hle
          · exact hall q hq
        · rcases hdisj with ⟨hbt', hbp'⟩ | ⟨htlt, hfind⟩
          · subst hbt'; subst hbp'
            rw [List.find?_cons]
            simp [← ht]
          · have hb : (tradedVol ts p == bt') = false := by
              simp
              omega
            simp only [List.find?_cons, hb]
            exact hfind
      · rw [if_neg hlt] at h
        obtain ⟨hle, hall, hdisj⟩ := ih h
        have htle : t ≤ bt := Nat.le_of_not_lt hlt
        refine ⟨hle, ?_, ?_⟩
        · intro q hq
          rcases List.mem_cons.mp hq with hq | hq
          · subst hq; rw [← ht]; exact Nat.le_trans htle hle
          · exact hall q hq
        · rcases hdisj with ⟨hbt', hbp'⟩ | ⟨hbtlt, hfind⟩
          · exact Or.inl ⟨hbt', hbp'⟩
          · refine Or.inr ⟨hbtlt, ?_⟩
            have hb : (tradedVol ts p == bt') = false := by
              simp
              omega
            simp only [List.find?_cons, hb]
            exact hfind

/-- Characterization of the fill/refund quadruple. -/
theorem settleFills_ok {o : Order} {g : Nat} {fb fq rb rq : Nat}
    (h : settleFills o g = .ok (fb, fq, rb, rq)) :
    fb = o.amount_base_fp ∧ fq = g ∧ rb = 0 ∧
    (o.side = OrderSide.Bid → g ≤ o.quote_deposit_fp ∧ rq = o.quote_deposit_fp - g) ∧
    (o.side = OrderSide.Ask → rq = 0) := by
  unfold settleFills at h
  cases hside : o.side with
  | Bid =>
    rw [hside] at h
    cases hsub : checkedSub o.quote_deposit_fp g with
    | none => rw [hsub] at h; exact Except.noConfusion h
    | some rq0 =>
      rw [hsub] at h
      obtain ⟨hrq0, hle⟩ := checkedSub_some hsub
      injection h with h2
      injection h2 with e1 e2
      injection e2 with e3 e4
      injection e4 with e5 e6
      refine ⟨e1.symm, e3.symm, e5.symm, fun _ => ⟨hle, ?_⟩, fun ha => ?_⟩
      · omega
      · exact OrderSide.noConfusion ha
  | Ask =>
    rw [hside] at h
    injection h with h2
    injection h2 with e1 e2
    injection e2 with e3 e4
    injection e4 with e5 e6
    refine ⟨e1.symm, e3.symm, e5.symm, fun hb => ?_, fun _ => e6.symm⟩
    exact OrderSide.noConfusion hb

/-- The not-crossed settlement result spelled out. -/
theorem settleRefund_spec (m : Market) (bs : BatchState) (o : Order) (okey : Nat) :
    (settleRefund m bs o okey).market = m ∧
    (settleRefund m bs o okey).batch_state = bs ∧
    (settleRefund m bs o okey).order = { o with filled := true } ∧
    (settleRefund m bs o okey).order_fill.claimed = true ∧
    (settleRefund m bs o okey).order_fill.batch_id = bs.batch_id ∧
    (settleRefund m bs o okey).order_fill.filled_base_fp = 0 ∧
    (settleRefund m bs o okey).order_fill.filled_quote_fp = 0 ∧
    (o.side = OrderSide.Bid →
      (settleRefund m bs o okey).order_fill.refund_quote_fp = toU64 o.quote_deposit_fp ∧
      (settleRefund m bs o okey).order_fill.refund_base_fp = 0) ∧
    (o.side = OrderSide.Ask →
      (settleRefund m bs o okey).order_fill.refund_base_fp = toU64 o.amount_base_fp ∧
      (settleRefund m bs o okey).order_fill.refund_quote_fp = 0) := by
  refine ⟨rfl, rfl, rfl, rfl, rfl, rfl, rfl, fun hb => ⟨?_, ?_⟩, fun ha => ⟨?_, ?_⟩⟩
  · simp only [settleRefund, hb]
  · simp [settleRefund, hb, toU64]
  · simp only [settleRefund, ha]
  · simp [settleRefund, ha, toU64]

/-- Characterization of a successful crossed settlement. -/
theorem settleCrossed_ok_elim {m : Market} {bs : BatchState} {o : Order}
    {okey : Nat} {out : SettleOk}
    (h : settleCrossed m bs o okey = .ok out) :
    o.amount_base_fp ≤ bs.remaining_base_to_settle_fp ∧
    out.order = { o with filled := true } ∧
    out.order_fill.claimed = true ∧
    out.order_fill.batch_id = bs.batch_id ∧
    out.batch_state.market = bs.market ∧
    out.batch_state.batch_id = bs.batch_id ∧
    out.batch_state.clearing_price_fp = bs.clearing_price_fp ∧
    out.market.paused = m.paused ∧
    out.market.key = m.key ∧
    out.batch_state.remaining_base_to_settle_fp =
      bs.remaining_base_to_settle_fp - o.amount_base_fp ∧
    out.batch_state.remaining_quote_to_settle_fp ≤ bs.remaining_quote_to_settle_fp ∧
    out.batch_state.settled =
      (if out.batch_state.remaining_base_to_settle_fp = 0 then true else bs.settled) ∧
    out.order_fill.filled_base_fp = toU64 o.amount_base_fp ∧
    out.order_fill.filled_quote_fp =
      toU64 (o.amount_base_fp * bs.clearing_price_fp / PRICE_SCALE) ∧
    out.order_fill.refund_base_fp = 0 ∧
    (o.side = OrderSide.Bid →
      o.amount_base_fp * bs.clearing_price_fp / PRICE_SCALE ≤ o.quote_deposit_fp ∧
      out.order_fill.refund_quote_fp =
        toU64 (o.quote_deposit_fp -
          o.amount_base_fp * bs.clearing_price_fp / PRICE_SCALE)) ∧
    (o.side = OrderSide.Ask → out.order_fill.refund_quote_fp = 0) := by
  unfold settleCrossed at h
  split at h
  · exact Except.noConfusion h
  next hcap =>
  have hcap2 : o.amount_base_fp ≤ bs.remaining_base_to_settle_fp :=
    Nat.le_of_not_lt hcap
  cases hmul : checkedMul U128 o.amount_base_fp bs.clearing_price_fp with
  | none => rw [hmul] at h; exact Except.noConfusion h
  | some prod =>
  rw [hmul] at h
  dsimp only at h
  obtain ⟨hprod, _⟩ := checkedMul_some hmul
  subst hprod
  split at h
  · exact Except.noConfusion h
  next hafford =>
  cases hsf : settleFills o (o.amount_base_fp * bs.clearing_price_fp / PRICE_SCALE) with
  | error e => rw [hsf] at h; exact Except.noConfusion h
  | ok quad =>
  obtain ⟨fb, fq, rb, rq⟩ := quad
  rw [hsf] at h
  dsimp only at h
  obtain ⟨hfb, hfq, hrb, hbidq, haskq⟩ := settleFills_ok hsf
  subst hfb; subst hfq; subst hrb
  cases hsub2 : checkedSub bs.remaining_base_to_settle_fp o.amount_base_fp with
  | none => rw [hsub2] at h; exact Except.noConfusion h
  | some rb2 =>
  rw [hsub2] at h
  dsimp only at h
  obtain ⟨hrb2, _⟩ := checkedSub_some hsub2
  cases hsub3 : checkedSub bs.remaining_quote_to_settle_fp
      (o.amount_base_fp * bs.clearing_price_fp / PRICE_SCALE) with
  | none => rw [hsub3] at h; exact Except.noConfusion h
  | some rq2 =>
  rw [hsub3] at h
  dsimp only at h
  obtain ⟨hrq2, _⟩ := checkedSub_some hsub3
  cases hfee : settleFee m (o.amount_base_fp * bs.clearing_price_fp / PRICE_SCALE) with
  | error e => rw [hfee] at h; exact Except.noConfusion h
  | ok acc =>
  rw [hfee] at h
  dsimp only at h
  injection h with h2
  subst h2
  refine ⟨hcap2, rfl, rfl, rfl, rfl, rfl, rfl, rfl, rfl, ?_, ?_, rfl, rfl, rfl,
    ?_, ?_, ?_⟩
  · show rb2 = bs.remaining_base_to_settle_fp - o.amount_base_fp
    omega
  · show rq2 ≤ bs.remaining_quote_to_settle_fp
    rw [hrq2]
    exact Nat.sub_le _ _
  · show toU64 0 = 0
    simp [toU64]
  · intro hb
    obtain ⟨hle, hrqv⟩ := hbidq hb
    refine ⟨hle, ?_⟩
    show toU64 rq = toU64 (o.quote_deposit_fp -
      o.amount_base_fp * bs.clearing_price_fp / PRICE_SCALE)
    rw [hrqv]
  · intro ha
    show toU64 rq = 0
    rw [haskq ha]
    simp [toU64]

/-- Master characterization of a successful `settle_order`: the guard
facts it implies, the shape of the updated accounts, and the receipt
contents of the crossed and non-crossed branches. -/
theorem settleOrder_ok_elim {m : Market} {bs : BatchState} {o : Order}
    {f : OrderFill} {okey : Nat} {out : SettleOk}
    (h : settleOrder m bs o f okey = .ok out) :
    m.paused = false ∧ bs.market = m.key ∧ bs.batch_id = o.batch_id ∧
    0 < bs.clearing_price_fp ∧ o.cancelled = false ∧ f.claimed = false ∧
    out.order = { o with filled := true } ∧
    out.order_fill.claimed = true ∧
    out.order_fill.batch_id = bs.batch_id ∧
    out.batch_state.market = bs.market ∧
    out.batch_state.batch_id = bs.batch_id ∧
    out.batch_state.clearing_price_fp = bs.clearing_price_fp ∧
    out.market.paused = m.paused ∧
    out.market.key = m.key ∧
    out.batch_state.remaining_base_to_settle_fp ≤ bs.remaining_base_to_settle_fp ∧
    out.batch_state.remaining_quote_to_settle_fp ≤ bs.remaining_quote_to_settle_fp ∧
    ((bs.settled = true ↔ bs.remaining_base_to_settle_fp = 0) →
      (out.batch_state.settled = true ↔
        out.batch_state.remaining_base_to_settle_fp = 0)) ∧
    (crossedAt o.side o.limit_price_fp bs.clearing_price_fp = true →
      out.order_fill.filled_base_fp = toU64 o.amount_base_fp ∧
      out.order_fill.filled_quote_fp =
        toU64 (o.amount_base_fp * bs.clearing_price_fp / PRICE_SCALE) ∧
      out.order_fill.refund_base_fp = 0 ∧
      (o.side = OrderSide.Bid →
        o.amount_base_fp * bs.clearing_price_fp / PRICE_SCALE ≤ o.quote_deposit_fp ∧
        out.order_fill.refund_quote_fp =
          toU64 (o.quote_deposit_fp -
            o.amount_base_fp * bs.clearing_price_fp / PRICE_SCALE)) ∧
      (o.side = OrderSide.Ask → out.order_fill.refund_quote_fp = 0) ∧
      o.amount_base_fp ≤ bs.remaining_base_to_settle_fp ∧
      out.batch_state.remaining_base_to_settle_fp =
        bs.remaining_base_to_settle_fp - o.amount_base_fp) ∧
    (crossedAt o.side o.limit_price_fp bs.clearing_price_fp = false →
      out.batch_state = bs ∧ out.market = m ∧
      out.order_fill.filled_base_fp = 0 ∧ out.order_fill.filled_quote_fp = 0 ∧
      (o.side = OrderSide.Bid →
        out.order_fill.refund_quote_fp = toU64 o.quote_deposit_fp ∧
        out.order_fill.refund_base_fp = 0) ∧
      (o.side = OrderSide.Ask →
        out.order_fill.refund_base_fp = toU64 o.amount_base_fp ∧
        out.order_fill.refund_quote_fp = 0)) := by
  unfold settleOrder at h
  split at h
  · exact Except.noConfusion h
  next hpaused =>
  split at h
  · exact Except.noConfusion h
  next hmk =>
  split at h
  · exact Except.noConfusion h
  next hbid =>
  split at h
  · exact Except.noConfusion h
  next hprice =>
  split at h
  · exact Except.noConfusion h
  next hcanc =>
  split at h
  · exact Except.noConfusion h
  next hclaim =>
  have hpaused2 : m.paused = false := by
    cases hb : m.paused
    · rfl
    · exact absurd hb hpaused
  have hmk2 : bs.market = m.key := by omega
  have hbid2 : bs.batch_id = o.batch_id := by omega
  have hprice2 : 0 < bs.clearing_price_fp := Nat.pos_of_ne_zero hprice
  have hcanc2 : o.cancelled = false := by
    cases hb : o.cancelled
    · rfl
    · exact absurd hb hcanc
  have hclaim2 : f.claimed = false := by
    cases hb : f.claimed
    · rfl
    · exact absurd hb hclaim
  refine ⟨hpaused2, hmk2, hbid2, hprice2, hcanc2, hclaim2, ?_⟩
  split at h
  next hcrossT =>
    obtain ⟨hc1, hc2, hc3, hc4, hc5, hc6, hc7, hc8, hc9, hc10, hc11, hc12,
      hc13, hc14, hc15, hc16, hc17⟩ := settleCrossed_ok_elim h
    refine ⟨hc2, hc3, hc4, hc5, hc6, hc7, hc8, hc9, by omega, hc11, ?_, ?_, ?_⟩
    · intro hinv
      rw [hc12]
      by_cases hz : out.batch_state.remaining_base_to_settle_fp = 0
      · simp [hz]
      · rw [if_neg hz]
        constructor
        · intro hsT
          have h0 := hinv.mp hsT
          omega
        · intro hr
          exact absurd hr hz
    · intro _
      exact ⟨hc13, hc14, hc15, hc16, hc17, hc1, hc10⟩
    · intro hfalse
      rw [hcrossT] at hfalse
      exact Bool.noConfusion hfalse
  next hcross =>
    have hcrossF : crossedAt o.side o.limit_price_fp bs.clearing_price_fp = false := by
      cases hb : crossedAt o.side o.limit_price_fp bs.clearing_price_fp
      · rfl
      · exact absurd hb hcross
    injection h with h2
    subst h2
    obtain ⟨hr1, hr2, hr3, hr4, hr5, hr6, hr7, hr8, hr9⟩ :=
      settleRefund_spec m bs o okey
    refine ⟨hr3, hr4, hr5, ?_, ?_, ?_, ?_, ?_, ?_, ?_, ?_, ?_, ?_⟩
    · rw [hr2]
    · rw [hr2]
    · rw [hr2]
    · rw [hr1]
    · rw [hr1]
    · rw [hr2]
    · rw [hr2]
    · intro hinv
      rw [hr2]
      exact hinv
    · intro htrue
      rw [hcrossF] at htrue
      exact Bool.noConfusion htrue
    · intro _
      exact ⟨hr2, hr1, hr6, hr7, hr8, hr9⟩

/-- Facts about the price-0 roll exit. -/
theorem rollBatch0_ok_elim {m : Market} {slot a : Nat} {r : ClearOk}
    (h : rollBatch0 m slot a = .ok r) :
    r.batch_state.clearing_price_fp = 0 ∧
    r.batch_state.total_base_traded_fp = 0 ∧
    r.batch_state.total_quote_traded_fp = 0 ∧
    r.batch_state.remaining_base_to_settle_fp = 0 ∧
    r.batch_state.remaining_quote_to_settle_fp = 0 ∧
    r.batch_state.settled = true ∧
    r.market.batch_notional_quote_fp = 0 ∧
    r.market.global_orders_in_batch = 0 := by
  unfold rollBatch0 at h
  cases hadd : checkedAdd U64 m.current_batch_id 1 with
  | none => rw [hadd] at h; exact Except.noConfusion h
  | some nb =>
    rw [hadd] at h
    dsimp only at h
    injection h with h2
    subst h2
    exact ⟨rfl, rfl, rfl, rfl, rfl, rfl, rfl, rfl⟩

/-- Facts about the final state update of a crossing clear. -/
theorem clearFinish_ok_elim {m : Market} {slot a bp tb tq : Nat} {r : ClearOk}
    (h : clearFinish m slot a bp tb tq = .ok r) :
    r.batch_state.clearing_price_fp = bp ∧
    r.batch_state.batch_id = m.current_batch_id ∧
    r.batch_state.market = m.key ∧
    r.batch_state.total_base_traded_fp = toU64 tb ∧
    r.batch_state.total_quote_traded_fp = toU64 tq ∧
    r.batch_state.remaining_base_to_settle_fp = tb ∧
    r.batch_state.remaining_quote_to_settle_fp = tq ∧
    r.batch_state.settled = (tb == 0) ∧
    r.market.batch_notional_quote_fp = 0 ∧
    r.market.global_orders_in_batch = 0 ∧
    r.market.last_clearing_price_fp = bp := by
  unfold clearFinish at h
  split at h
  · exact Except.noConfusion h
  next kr hkr =>
  cases hadd : checkedAdd U64 m.current_batch_id 1 with
  | none => rw [hadd] at h; exact Except.noConfusion h
  | some nb =>
    rw [hadd] at h
    dsimp only at h
    injection h with h2
    subst h2
    exact ⟨rfl, rfl, rfl, rfl, rfl, rfl, rfl, rfl, rfl, rfl, rfl⟩

/-- Master case analysis of a successful `clear_batch`: either it took a
price-0 roll exit, or the clearing price came out of the candidate
search with positive traded volume and the state update of `clearFinish`
applied. -/
theorem clearBatch_ok_elim {m : Market} {slot auth : Nat}
    {orders : List Order} {r : ClearOk}
    (h : clearBatch m slot auth orders = .ok r) :
    rollBatch0 m slot auth = .ok r ∨
    (∃ bp bt tb tq,
      0 < bp ∧ 0 < bt ∧
      findClearing (collectOrders m.key m.current_batch_id orders)
        (candidatePrices (collectOrders m.key m.current_batch_id orders)) 0 0
          = .ok (bp, bt) ∧
      clearFinish m slot auth bp tb tq = .ok r) := by
  unfold clearBatch at h
  split at h
  · exact Except.noConfusion h
  next =>
  split at h
  · exact Except.noConfusion h
  next =>
  split at h
  · exact Except.noConfusion h
  next =>
  split at h
  · exact Except.noConfusion h
  next =>
  dsimp only at h
  split at h
  · exact Or.inl h
  next =>
  split at h
  · exact Except.noConfusion h
  next bp bt hfc =>
  split at h
  · exact Or.inl h
  next hnz =>
  split at h
  · exact Except.noConfusion h
  next u hbc =>
  split at h
  · exact Except.noConfusion h
  next tb tq hml =>
  exact Or.inr ⟨bp, bt, tb, tq, by omega, by omega, hfc, h⟩

/-- A crossed order whose full amount exceeds the remaining batch budget
fails with `BatchFullySettled` (and, the result being an error, no state
is mutated). -/
theorem settleOrder_full_error {m : Market} {bs : BatchState} {o : Order}
    {f : OrderFill} {okey : Nat}
    (hp : m.paused = false) (hmk : bs.market = m.key)
    (hbid : bs.batch_id = o.batch_id) (hpr : 0 < bs.clearing_price_fp)
    (hc : o.cancelled = false) (hcl : f.claimed = false)
    (hcross : crossedAt o.side o.limit_price_fp bs.clearing_price_fp = true)
    (hover : bs.remaining_base_to_settle_fp < o.amount_base_fp) :
    settleOrder m bs o f okey = .error AmmError.BatchFullySettled := by
  unfold settleOrder
  rw [if_neg (by simp [hp])]
  rw [if_neg (by omega)]
  rw [if_neg (by omega)]
  rw [if_neg (by omega)]
  rw [if_neg (by simp [hc])]
  rw [if_neg (by simp [hcl])]
  rw [if_pos hcross]
  unfold settleCrossed
  rw [if_pos hover]

/-- One settlement attempt never increases the remaining budget and
preserves the settled-flag invariant. -/
theorem settleStep_mono (s : Market × BatchState) (r : SettleReq) :
    (settleStep s r).2.remaining_base_to_settle_fp ≤
      s.2.remaining_base_to_settle_fp ∧
    (settleStep s r).2.remaining_quote_to_settle_fp ≤
      s.2.remaining_quote_to_settle_fp ∧
    ((s.2.settled = true ↔ s.2.remaining_base_to_settle_fp = 0) →
      ((settleStep s r).2.settled = true ↔
        (settleStep s r).2.remaining_base_to_settle_fp = 0)) := by
  unfold settleStep
  cases hso : settleOrder s.1 s.2 r.order r.fill r.okey with
  | error e => exact ⟨Nat.le_refl _, Nat.le_refl _, fun hinv => hinv⟩
  | ok out =>
    obtain ⟨_, _, _, _, _, _, _, _, _, _, _, _, _, _, hb, hq, hflag, _, _⟩ :=
      settleOrder_ok_elim hso
    exact ⟨hb, hq, hflag⟩

/-- Over any sequence of settlement attempts the remaining budget is
non-increasing. -/
theorem settleSeq_mono (rs : List SettleReq) :
    ∀ s : Market × BatchState,
      (settleSeq s rs).2.remaining_base_to_settle_fp ≤
        s.2.remaining_base_to_settle_fp ∧
      (settleSeq s rs).2.remaining_quote_to_settle_fp ≤
        s.2.remaining_quote_to_settle_fp := by
  induction rs with
  | nil => exact fun s => ⟨Nat.le_refl _, Nat.le_refl _⟩
  | cons r rs ih =>
    intro s
    have hstep := settleStep_mono s r
    have hrest := ih (settleStep s r)
    unfold settleSeq at hrest ⊢
    rw [List.foldl_cons]
    exact ⟨Nat.le_trans hrest.1 hstep.1, Nat.le_trans hrest.2 hstep.2.1⟩

/-- Over any sequence of settlement attempts the settled flag remains
equivalent to budget exhaustion. -/
theorem settleSeq_flag (rs : List SettleReq) :
    ∀ s : Market × BatchState,
      (s.2.settled = true ↔ s.2.remaining_base_to_settle_fp = 0) →
      ((settleSeq s rs).2.settled = true ↔
        (settleSeq s rs).2.remaining_base_to_settle_fp = 0) := by
  induction rs with
  | nil => exact fun s hinv => hinv
  | cons r rs ih =>
    intro s hinv
    have hstep := (settleStep_mono s r).2.2 hinv
    have hrest := ih (settleStep s r) hstep
    unfold settleSeq at hrest ⊢
    rw [List.foldl_cons]
    exact hrest

/-- Characterization of the `place_order` tail. -/
theorem placeFinish_ok_elim {m3 : Market} {ub2 : UserBatchStats}
    {u : Nat} {side : OrderSide} {p a oid : Nat} {out : PlaceOk}
    (h : placeFinish m3 ub2 u side p a oid = .ok out) :
    out.market = m3 ∧ out.stats = ub2 ∧ out.order.side = side ∧
    (side = OrderSide.Bid →
      out.order.quote_deposit_fp = toU64 (a * p / PRICE_SCALE) ∧
      0 < out.order.quote_deposit_fp ∧ 0 < a * p / PRICE_SCALE) := by
  unfold placeFinish at h
  cases side with
  | Bid =>
    cases hmul : checkedMul U128 a p with
    | none => rw [hmul] at h; exact Except.noConfusion h
    | some prod2 =>
      rw [hmul] at h
      dsimp only at h
      obtain ⟨hprod2, _⟩ := checkedMul_some hmul
      subst hprod2
      split at h
      · exact Except.noConfusion h
      next hqnz =>
      injection h with h2
      subst h2
      refine ⟨rfl, rfl, rfl, fun _ => ⟨rfl, Nat.pos_of_ne_zero hqnz, ?_⟩⟩
      unfold toU64 U64 at hqnz
      unfold PRICE_SCALE at hqnz ⊢
      omega
  | Ask =>
    injection h with h2
    subst h2
    exact ⟨rfl, rfl, rfl, fun hb => OrderSide.noConfusion hb⟩

set_option maxHeartbeats 1000000 in
/-- Caps established by every successful admission: the updated market
and user accumulators respect their configured ceilings, which the
admission does not change. -/
theorem placeOrder_ok_elim {m : Market} {ub : UserBatchStats} {u : Nat}
    {side : OrderSide} {p a : Nat} {out : PlaceOk}
    (h : placeOrder m ub u side p a = .ok out) :
    out.market.batch_notional_quote_fp ≤
      out.market.max_notional_per_batch_quote_fp ∧
    out.market.global_orders_in_batch ≤ out.market.max_orders_global_per_batch ∧
    out.stats.notional_quote_fp ≤ m.max_notional_per_user_per_batch_quote_fp ∧
    out.stats.order_count ≤ m.max_orders_per_user_per_batch ∧
    out.market.max_notional_per_batch_quote_fp =
      m.max_notional_per_batch_quote_fp ∧
    out.market.max_orders_global_per_batch = m.max_orders_global_per_batch ∧
    out.market.max_notional_per_user_per_batch_quote_fp =
      m.max_notional_per_user_per_batch_quote_fp ∧
    out.market.max_orders_per_user_per_batch = m.max_orders_per_user_per_batch ∧
    (side = OrderSide.Bid →
      out.order.quote_deposit_fp = toU64 (a * p / PRICE_SCALE) ∧
      0 < out.order.quote_deposit_fp ∧ 0 < a * p / PRICE_SCALE) := by
  unfold placeOrder at h
  split at h
  · exact Except.noConfusion h
  next =>
  split at h
  · exact Except.noConfusion h
  next =>
  split at h
  · exact Except.noConfusion h
  next =>
  split at h
  · exact Except.noConfusion h
  next prod hmul =>
  dsimp only at h
  split at h
  · exact Except.noConfusion h
  next =>
  split at h
  · exact Except.noConfusion h
  next =>
  split at h
  · exact Except.noConfusion h
  next =>
  split at h
  · exact Except.noConfusion h
  next =>
  split at h
  · exact Except.noConfusion h
  next =>
  split at h
  · exact Except.noConfusion h
  next nun hnun =>
  split at h
  · exact Except.noConfusion h
  next hnunle =>
  split at h
  · exact Except.noConfusion h
  next hcnt =>
  split at h
  · exact Except.noConfusion h
  next cnt hcnt2 =>
  split at h
  · exact Except.noConfusion h
  next nbn hnbn =>
  split at h
  · exact Except.noConfusion h
  next hnbnle =>
  split at h
  · exact Except.noConfusion h
  next hglob =>
  split at h
  · exact Except.noConfusion h
  next g hg =>
  split at h
  · exact Except.noConfusion h
  next nid hnid =>
  obtain ⟨hm, hst, hside, hbid⟩ := placeFinish_ok_elim h
  obtain ⟨hcv, _⟩ := checkedAdd_some hcnt2
  obtain ⟨hgv, _⟩ := checkedAdd_some hg
  rw [hm, hst]
  refine ⟨?_, ?_, ?_, ?_, rfl, rfl, rfl, rfl, hbid⟩
  · dsimp only
    omega
  · dsimp only
    omega
  · dsimp only
    omega
  · dsimp only
    omega

/-- The cast `as u64` is the identity below `2 ^ 64`. -/
theorem toU64_eq_of_lt {a : Nat} (h : a < U64) : toU64 a = a :=
  Nat.mod_eq_of_lt h

/-- The market-wide per-batch cap invariant of the specification. -/
def marketCapsOk (m : Market) : Prop :=
  m.batch_notional_quote_fp ≤ m.max_notional_per_batch_quote_fp ∧
  m.global_orders_in_batch ≤ m.max_orders_global_per_batch

instance (m : Market) : Decidable (marketCapsOk m) := by
  unfold marketCapsOk
  exact inferInstance

/-- One admission attempt preserves the market-wide cap invariant. -/
theorem placeStep_caps (m : Market) (r : PlaceReq) (hm : marketCapsOk m) :
    marketCapsOk (placeStep m r) := by
  unfold placeStep
  cases hpo : placeOrder m r.stats r.user r.side r.limit_price_fp r.amount_base_fp with
  | error e => exact hm
  | ok out =>
    obtain ⟨h1, h2, _⟩ := placeOrder_ok_elim hpo
    exact ⟨h1, h2⟩

/-- Any sequence of admission attempts preserves the market-wide cap
invariant. -/
theorem placeSeq_caps (rs : List PlaceReq) :
    ∀ m : Market, marketCapsOk m → marketCapsOk (placeSeq m rs) := by
  induction rs with
  | nil => exact fun m hm => hm
  | cons r rs ih =>
    intro m hm
    have hstep := placeStep_caps m r hm
    have hrest := ih (placeStep m r) hstep
    unfold placeSeq at hrest ⊢
    rw [List.foldl_cons]
    exact hrest

/-- Facts about a successful `set_params`. -/
theorem setParams_ok_elim {m : Market} {caller nf mnb mnu mog mpm kf mbo mqo pf rf : Nat}
    {m2 : Market} (h : setParams m caller nf mnb mnu mog mpm kf mbo mqo pf rf = .ok m2) :
    m2.fee_bps = nf ∧ m2.protocol_fee_bps = pf ∧ m2.referral_fee_bps = rf ∧
    pf ≤ nf ∧ rf ≤ nf ∧ nf ≤ BPS_DENOM := by
  unfold setParams at h
  split at h
  · exact Except.noConfusion h
  next =>
  split at h
  · exact Except.noConfusion h
  next hfb =>
  split at h
  · exact Except.noConfusion h
  next hpf =>
  split at h
  · exact Except.noConfusion h
  next hrf =>
  injection h with h2
  subst h2
  exact ⟨rfl, rfl, rfl, by omega, by omega, by omega⟩

/-- Facts about a successful `initialize_market`. -/
theorem initMarket_ok_elim {mkey ak dur fee mx : Nat} {m0 : Market}
    (h : initMarket mkey ak dur fee mx = .ok m0) :
    m0.fee_bps = fee ∧ m0.protocol_fee_bps = fee ∧ m0.referral_fee_bps = 0 ∧
    fee ≤ BPS_DENOM := by
  unfold initMarket at h
  split at h
  · exact Except.noConfusion h
  next hfb =>
  injection h with h2
  subst h2
  exact ⟨rfl, rfl, rfl, by omega⟩

/-! ### Claim theorems -/

/-- C1 (counterexample): the claim asserts that settling an order of a
batch whose snapshot has clearing price 0 succeeds with a full refund.
At a concrete such batch (a lone bid rolled with clearing price 0),
`settle_order` instead fails with `BatchNotCleared`. -/
theorem C1_counterexample :
    r1.batch_state.clearing_price_fp = 0 ∧
    r1.batch_state.batch_id = bidS.batch_id ∧
    settleOrder r1.market r1.batch_state bidS fFresh 40 =
      .error AmmError.BatchNotCleared := by
  refine ⟨by decide, by decide, by decide⟩

/-- C1 (amended): on a batch snapshot with clearing price 0 (and the
guards before the clearing-price check passing), `settle_order` fails
with `BatchNotCleared`; the pure-refund path through `settle_order` is
reachable only when the snapshot has a non-zero clearing price. -/
theorem C1_thm :
    (∀ (m : Market) (bs : BatchState) (o : Order) (f : OrderFill) (k : Nat),
      m.paused = false → bs.market = m.key → bs.batch_id = o.batch_id →
      bs.clearing_price_fp = 0 →
      settleOrder m bs o f k = .error AmmError.BatchNotCleared) ∧
    (∀ (m : Market) (bs : BatchState) (o : Order) (f : OrderFill) (k : Nat)
      (out : SettleOk), settleOrder m bs o f k = .ok out →
      0 < bs.clearing_price_fp) := by
  constructor
  · intro m bs o f k hp hmk hbid hpz
    unfold settleOrder
    rw [if_neg (by simp [hp])]
    rw [if_neg (by omega)]
    rw [if_neg (by omega)]
    rw [if_pos hpz]
  · intro m bs o f k out h
    exact (settleOrder_ok_elim h).2.2.2.1

/-- C1 (witness): the amended claim applied to the concrete rolled batch
and the lone ask. -/
theorem C1_witness :
    settleOrder r1.market r1.batch_state askS fFresh 41 =
      .error AmmError.BatchNotCleared :=
  C1_thm.1 r1.market r1.batch_state askS fFresh 41
    (by decide) (by decide) (by decide) (by decide)

/-- C7 (code evaluation at the failing input): order `oC7` belongs to
batch 0, which was already cleared (`mC7.current_batch_id = 1`, so the
window of batch 0 closed), yet `cancel_order` at slot 105 succeeds with
a full refund, because the source compares the clock against the
current batch window (`last_batch_slot + batch_duration`) and never
consults the batch id of the order. -/
theorem C7_code_bug :
    oC7.batch_id < mC7.current_batch_id ∧
    oC7.cancelled = false ∧ oC7.filled = false ∧
    cancelOrder mC7 oC7 105 = .ok pC7 ∧
    pC7.2.cancelled = true := by
  refine ⟨by decide, by decide, by decide, by decide, by decide⟩

/-- C8 (counterexample): `set_params` with total fee 100 bps, protocol
fee 100 bps and referral fee 100 bps succeeds — each field is checked
against the new total separately — leaving the combined
protocol+referral fee (200 bps) above the total fee (100 bps). -/
theorem C8_counterexample :
    setParams mS 7 100 0 0 0 0 0 0 0 100 100 = .ok m8 ∧
    m8.fee_bps < m8.protocol_fee_bps + m8.referral_fee_bps := by
  refine ⟨by decide, by decide⟩

/-- C8 (amended): after `initialize_market` the combined invariant
`protocol + referral ≤ fee` does hold (protocol starts at the total and
referral at 0); `set_params` enforces only the per-field bounds
`protocol ≤ new_fee` and `referral ≤ new_fee` (and `new_fee ≤ 100%`),
not a bound on their sum. -/
theorem C8_thm :
    (∀ (mkey ak dur fee mx : Nat) (m0 : Market),
      initMarket mkey ak dur fee mx = .ok m0 →
      m0.protocol_fee_bps + m0.referral_fee_bps ≤ m0.fee_bps) ∧
    (∀ (m : Market) (caller nf mnb mnu mog mpm kf mbo mqo pf rf : Nat)
      (m2 : Market),
      setParams m caller nf mnb mnu mog mpm kf mbo mqo pf rf = .ok m2 →
      m2.protocol_fee_bps ≤ m2.fee_bps ∧ m2.referral_fee_bps ≤ m2.fee_bps ∧
        m2.fee_bps ≤ BPS_DENOM) := by
  constructor
  · intro mkey ak dur fee mx m0 h
    obtain ⟨h1, h2, h3, _⟩ := initMarket_ok_elim h
    omega
  · intro m caller nf mnb mnu mog mpm kf mbo mqo pf rf m2 h
    obtain ⟨h1, h2, h3, h4, h5, h6⟩ := setParams_ok_elim h
    omega

/-- C8 (witness): the amended claim applied to a concrete bootstrap and
a concrete in-bounds update. -/
theorem C8_witness :
    (mInit.protocol_fee_bps + mInit.referral_fee_bps ≤ mInit.fee_bps) ∧
    (m8b.protocol_fee_bps ≤ m8b.fee_bps ∧ m8b.referral_fee_bps ≤ m8b.fee_bps ∧
      m8b.fee_bps ≤ BPS_DENOM) :=
  ⟨C8_thm.1 1 7 10 30 10 mInit (by decide),
   C8_thm.2 mS 7 100 0 0 0 0 0 0 0 50 20 m8b (by decide)⟩

/-- C9 (code evaluation at the failing input): the prior clearing price
is 1 and the band is 1 bps, the discovered clearing price `2 ^ 60 + 1`
deviates by `2 ^ 60 * 10000` bps — astronomically more than the band —
yet `clear_batch` succeeds and rolls the batch, because the source
truncates the u128 bps deviation with `as u64`
(`2 ^ 60 * 10000 = 625 * 2 ^ 64 ≡ 0 (mod 2 ^ 64)`), so the check
compares 0 against the band. -/
theorem C9_code_bug :
    m9.last_clearing_price_fp = 1 ∧ m9.max_price_move_bps = 1 ∧
    clearBatch m9 0 5 [o9b, o9a] = .ok r9 ∧
    r9.batch_state.clearing_price_fp = 2 ^ 60 + 1 ∧
    m9.max_price_move_bps <
      (r9.batch_state.clearing_price_fp - m9.last_clearing_price_fp) *
        BPS_DENOM / m9.last_clearing_price_fp := by
  refine ⟨by decide, by decide, by decide, by decide, by decide⟩

/-- C2 (counterexample): the claim asserts for every non-empty eligible
set that the chosen clearing price is a candidate price.  With a lone
bid (non-empty eligible set, candidates = its limit price) no candidate
crosses, `clear_batch` succeeds and writes clearing price 0, which is
not a candidate price. -/
theorem C2_counterexample :
    collectOrders mS.key mS.current_batch_id [bidS] ≠ [] ∧
    clearBatch mS 10 7 [bidS] = .ok r1 ∧
    candidatePrices (collectOrders mS.key mS.current_batch_id [bidS]) =
      [100000000] ∧
    r1.batch_state.clearing_price_fp ∉
      candidatePrices (collectOrders mS.key mS.current_batch_id [bidS]) := by
  refine ⟨by decide, by decide, by decide, by decide⟩

/-- C2 (amended): whenever `clear_batch` succeeds with a non-zero
clearing price, that price is a candidate price (a limit price of an
eligible order, in first-encounter order) attaining the maximum traded
volume `min(bid_volume, ask_volume)` over all candidates, its traded
volume is positive, and on ties it is the earliest-encountered
candidate attaining that maximum (the first match of `find?`); when no
candidate has positive traded volume the batch instead rolls with
clearing price 0. -/
theorem C2_thm :
    ∀ (m : Market) (slot auth : Nat) (orders : List Order) (r : ClearOk),
      clearBatch m slot auth orders = .ok r →
      0 < r.batch_state.clearing_price_fp →
      r.batch_state.clearing_price_fp ∈
        candidatePrices (collectOrders m.key m.current_batch_id orders) ∧
      0 < tradedVol (collectOrders m.key m.current_batch_id orders)
            r.batch_state.clearing_price_fp ∧
      (∀ p ∈ candidatePrices (collectOrders m.key m.current_batch_id orders),
        tradedVol (collectOrders m.key m.current_batch_id orders) p ≤
          tradedVol (collectOrders m.key m.current_batch_id orders)
            r.batch_state.clearing_price_fp) ∧
      (candidatePrices (collectOrders m.key m.current_batch_id orders)).find?
          (fun p =>
            tradedVol (collectOrders m.key m.current_batch_id orders) p ==
            tradedVol (collectOrders m.key m.current_batch_id orders)
              r.batch_state.clearing_price_fp) =
        some r.batch_state.clearing_price_fp := by
  intro m slot auth orders r h hpos
  rcases clearBatch_ok_elim h with hroll | ⟨bp, bt, tb, tq, hbp, hbt, hfc, hfin⟩
  · obtain ⟨hz, _⟩ := rollBatch0_ok_elim hroll
    omega
  · obtain ⟨hpr, _⟩ := clearFinish_ok_elim hfin
    obtain ⟨_, hall, hdisj⟩ := findClearing_spec hfc
    rcases hdisj with ⟨hbt0, _⟩ | ⟨_, hfind⟩
    · omega
    · have hmem := List.mem_of_find?_eq_some hfind
      have hpv := List.find?_some hfind
      have hpv2 : tradedVol (collectOrders m.key m.current_batch_id orders) bp
          = bt := by simpa using hpv
      rw [hpr]
      refine ⟨hmem, by omega, ?_, ?_⟩
      · intro p hp2
        rw [hpv2]
        exact hall p hp2
      · simp only [hpv2]
        exact hfind

/-- C2 (witness): the amended claim applied to the crossing pair, whose
clearing price is the first-encountered candidate 100e6. -/
theorem C2_witness :
    rS.batch_state.clearing_price_fp ∈
      candidatePrices (collectOrders mS.key mS.current_batch_id [bidS, askS]) ∧
    0 < tradedVol (collectOrders mS.key mS.current_batch_id [bidS, askS])
          rS.batch_state.clearing_price_fp ∧
    (∀ p ∈ candidatePrices (collectOrders mS.key mS.current_batch_id [bidS, askS]),
      tradedVol (collectOrders mS.key mS.current_batch_id [bidS, askS]) p ≤
        tradedVol (collectOrders mS.key mS.current_batch_id [bidS, askS])
          rS.batch_state.clearing_price_fp) ∧
    (candidatePrices (collectOrders mS.key mS.current_batch_id [bidS, askS])).find?
        (fun p =>
          tradedVol (collectOrders mS.key mS.current_batch_id [bidS, askS]) p ==
          tradedVol (collectOrders mS.key mS.current_batch_id [bidS, askS])
            rS.batch_state.clearing_price_fp) =
      some rS.batch_state.clearing_price_fp :=
  C2_thm mS 10 7 [bidS, askS] rS (by decide) (by decide)

/-- C3: every successful settlement conserves the deposit on the
receipt: for an ask, `filled_base + refund_base` equals the original
base amount; for a bid, `filled_quote + refund_quote` is at most the
quote deposit, with equality when the order was crossed.  The width
hypotheses state that the order fields are genuine u64 values, as they
are in the source. -/
theorem C3_thm :
    ∀ (m : Market) (bs : BatchState) (o : Order) (f : OrderFill) (k : Nat)
      (out : SettleOk),
      o.amount_base_fp < U64 → o.quote_deposit_fp < U64 →
      settleOrder m bs o f k = .ok out →
      (o.side = OrderSide.Ask →
        out.order_fill.filled_base_fp + out.order_fill.refund_base_fp =
          o.amount_base_fp) ∧
      (o.side = OrderSide.Bid →
        out.order_fill.filled_quote_fp + out.order_fill.refund_quote_fp ≤
          o.quote_deposit_fp ∧
        (crossedAt o.side o.limit_price_fp bs.clearing_price_fp = true →
          out.order_fill.filled_quote_fp + out.order_fill.refund_quote_fp =
            o.quote_deposit_fp)) := by
  intro m bs o f k out hwa hwd h
  obtain ⟨_, _, _, _, _, _, _, _, _, _, _, _, _, _, _, _, _, hcr, hnc⟩ :=
    settleOrder_ok_elim h
  cases hx : crossedAt o.side o.limit_price_fp bs.clearing_price_fp with
  | true =>
    obtain ⟨hfb, hfq, hrb, hbidq, haskq, _, _⟩ := hcr hx
    constructor
    · intro _
      rw [hfb, hrb, toU64_eq_of_lt hwa]
      omega
    · intro hb
      obtain ⟨hgle, hrq⟩ := hbidq hb
      have hglt : o.amount_base_fp * bs.clearing_price_fp / PRICE_SCALE < U64 :=
        Nat.lt_of_le_of_lt hgle hwd
      rw [hfq, hrq, toU64_eq_of_lt hglt,
        toU64_eq_of_lt (Nat.lt_of_le_of_lt (Nat.sub_le _ _) hwd)]
      constructor
      · omega
      · intro _
        omega
  | false =>
    obtain ⟨_, _, hfb0, hfq0, hbidr, haskr⟩ := hnc hx
    constructor
    · intro ha
      obtain ⟨hrb, _⟩ := haskr ha
      rw [hfb0, hrb, toU64_eq_of_lt hwa]
      omega
    · intro hb
      obtain ⟨hrq, _⟩ := hbidr hb
      rw [hfq0, hrq, toU64_eq_of_lt hwd]
      constructor
      · omega
      · intro hct
        exact Bool.noConfusion hct

/-- C3 (witness): conservation at the concrete crossed bid settlement. -/
theorem C3_witness :
    (bidS.side = OrderSide.Ask →
      sS.order_fill.filled_base_fp + sS.order_fill.refund_base_fp =
        bidS.amount_base_fp) ∧
    (bidS.side = OrderSide.Bid →
      sS.order_fill.filled_quote_fp + sS.order_fill.refund_quote_fp ≤
        bidS.quote_deposit_fp ∧
      (crossedAt bidS.side bidS.limit_price_fp rS.batch_state.clearing_price_fp
          = true →
        sS.order_fill.filled_quote_fp + sS.order_fill.refund_quote_fp =
          bidS.quote_deposit_fp)) :=
  C3_thm rS.market rS.batch_state bidS fFresh 40 sS
    (by decide) (by decide) (by decide)

/-- C4: the settlement budget invariant.  (1) At clearing, the remaining
base/quote budgets start equal to the matched totals (the stored totals
are their u64 images) and the settled flag holds exactly when the base
budget is 0.  (2) Over any sequence of settlement attempts the budgets
are non-increasing (and, being `Nat`, never negative; a failed attempt
leaves state unchanged by construction of `settleStep`).  (3) The
settled-iff-exhausted invariant is preserved by any sequence.  (4) A
crossed order whose base amount exceeds the remaining base budget fails
with `BatchFullySettled`, and the error result carries no state. -/
theorem C4_thm :
    (∀ (m : Market) (slot auth : Nat) (orders : List Order) (r : ClearOk),
      clearBatch m slot auth orders = .ok r →
      r.batch_state.total_base_traded_fp =
        toU64 r.batch_state.remaining_base_to_settle_fp ∧
      r.batch_state.total_quote_traded_fp =
        toU64 r.batch_state.remaining_quote_to_settle_fp ∧
      (r.batch_state.settled = true ↔
        r.batch_state.remaining_base_to_settle_fp = 0)) ∧
    (∀ (s : Market × BatchState) (rs : List SettleReq),
      (settleSeq s rs).2.remaining_base_to_settle_fp ≤
        s.2.remaining_base_to_settle_fp ∧
      (settleSeq s rs).2.remaining_quote_to_settle_fp ≤
        s.2.remaining_quote_to_settle_fp) ∧
    (∀ (s : Market × BatchState) (rs : List SettleReq),
      (s.2.settled = true ↔ s.2.remaining_base_to_settle_fp = 0) →
      ((settleSeq s rs).2.settled = true ↔
        (settleSeq s rs).2.remaining_base_to_settle_fp = 0)) ∧
    (∀ (m : Market) (bs : BatchState) (o : Order) (f : OrderFill) (k : Nat),
      m.paused = false → bs.market = m.key → bs.batch_id = o.batch_id →
      0 < bs.clearing_price_fp → o.cancelled = false → f.claimed = false →
      crossedAt o.side o.limit_price_fp bs.clearing_price_fp = true →
      bs.remaining_base_to_settle_fp < o.amount_base_fp →
      settleOrder m bs o f k = .error AmmError.BatchFullySettled) := by
  refine ⟨?_, fun s rs => settleSeq_mono rs s, fun s rs => settleSeq_flag rs s,
    fun m bs o f k => @settleOrder_full_error m bs o f k⟩
  intro m slot auth orders r h
  rcases clearBatch_ok_elim h with hroll | ⟨bp, bt, tb, tq, hbp, hbt, hfc, hfin⟩
  · obtain ⟨_, h2, h3, h4, h5, h6, _⟩ := rollBatch0_ok_elim hroll
    rw [h2, h3, h4, h5, h6]
    refine ⟨by simp [toU64], by simp [toU64], by simp⟩
  · obtain ⟨_, _, _, h4, h5, h6, h7, h8, _⟩ := clearFinish_ok_elim hfin
    rw [h4, h5, h6, h7, h8]
    refine ⟨rfl, rfl, ?_⟩
    simp

/-- C4 (witness): the invariant components at the concrete cleared
batch, a one-step settlement sequence on it, and the concrete
budget-exceeded failure (the ask of the pair, after the bid consumed
the whole matched budget). -/
theorem C4_witness :
    (rS.batch_state.total_base_traded_fp =
        toU64 rS.batch_state.remaining_base_to_settle_fp ∧
      rS.batch_state.total_quote_traded_fp =
        toU64 rS.batch_state.remaining_quote_to_settle_fp ∧
      (rS.batch_state.settled = true ↔
        rS.batch_state.remaining_base_to_settle_fp = 0)) ∧
    ((settleSeq (rS.market, rS.batch_state) [reqS]).2.remaining_base_to_settle_fp ≤
        (rS.market, rS.batch_state).2.remaining_base_to_settle_fp ∧
      (settleSeq (rS.market, rS.batch_state) [reqS]).2.remaining_quote_to_settle_fp ≤
        (rS.market, rS.batch_state).2.remaining_quote_to_settle_fp) ∧
    ((settleSeq (rS.market, rS.batch_state) [reqS]).2.settled = true ↔
      (settleSeq (rS.market, rS.batch_state) [reqS]).2.remaining_base_to_settle_fp
        = 0) ∧
    settleOrder sS.market sS.batch_state askS fFresh 41 =
      .error AmmError.BatchFullySettled :=
  ⟨C4_thm.1 mS 10 7 [bidS, askS] rS (by decide),
   C4_thm.2.1 (rS.market, rS.batch_state) [reqS],
   C4_thm.2.2.1 (rS.market, rS.batch_state) [reqS] (by decide),
   C4_thm.2.2.2 sS.market sS.batch_state askS fFresh 41 (by decide) (by decide)
     (by decide) (by decide) (by decide) (by decide) (by decide) (by decide)⟩

/-- C5: cap enforcement.  (1) Every successful admission leaves the
market-wide accumulators within their caps and the per-user stats
within the user caps.  (2) Any sequence of admission attempts preserves
the market-wide cap invariant.  (3) A rejected admission leaves the
market unchanged (atomic rollback, modelled by `placeStep`).  (4) A
successful `clear_batch` resets both market-wide accumulators to 0. -/
theorem C5_thm :
    (∀ (m : Market) (ub : UserBatchStats) (u : Nat) (side : OrderSide)
      (p a : Nat) (out : PlaceOk),
      placeOrder m ub u side p a = .ok out →
      out.market.batch_notional_quote_fp ≤
        out.market.max_notional_per_batch_quote_fp ∧
      out.market.global_orders_in_batch ≤
        out.market.max_orders_global_per_batch ∧
      out.stats.notional_quote_fp ≤
        m.max_notional_per_user_per_batch_quote_fp ∧
      out.stats.order_count ≤ m.max_orders_per_user_per_batch) ∧
    (∀ (rs : List PlaceReq) (m : Market),
      marketCapsOk m → marketCapsOk (placeSeq m rs)) ∧
    (∀ (m : Market) (r : PlaceReq) (e : AmmError),
      placeOrder m r.stats r.user r.side r.limit_price_fp r.amount_base_fp =
        .error e →
      placeStep m r = m) ∧
    (∀ (m : Market) (slot auth : Nat) (orders : List Order) (r : ClearOk),
      clearBatch m slot auth orders = .ok r →
      r.market.batch_notional_quote_fp = 0 ∧
      r.market.global_orders_in_batch = 0) := by
  refine ⟨?_, placeSeq_caps, ?_, ?_⟩
  · intro m ub u side p a out h
    obtain ⟨h1, h2, h3, h4, _⟩ := placeOrder_ok_elim h
    exact ⟨h1, h2, h3, h4⟩
  · intro m r e h
    unfold placeStep
    rw [h]
  · intro m slot auth orders r h
    rcases clearBatch_ok_elim h with hroll | ⟨bp, bt, tb, tq, _, _, _, hfin⟩
    · obtain ⟨_, _, _, _, _, _, h7, h8⟩ := rollBatch0_ok_elim hroll
      exact ⟨h7, h8⟩
    · obtain ⟨_, _, _, _, _, _, _, _, h9, h10, _⟩ := clearFinish_ok_elim hfin
      exact ⟨h9, h10⟩

/-- C5 (witness): the cap facts at a concrete successful admission, a
one-request admission sequence, a concrete rejected admission (dust),
and the accumulator reset of the concrete clear. -/
theorem C5_witness :
    (pS.market.batch_notional_quote_fp ≤
        pS.market.max_notional_per_batch_quote_fp ∧
      pS.market.global_orders_in_batch ≤
        pS.market.max_orders_global_per_batch ∧
      pS.stats.notional_quote_fp ≤
        mS.max_notional_per_user_per_batch_quote_fp ∧
      pS.stats.order_count ≤ mS.max_orders_per_user_per_batch) ∧
    marketCapsOk (placeSeq mS [reqP]) ∧
    placeStep mS reqFail = mS ∧
    (rS.market.batch_notional_quote_fp = 0 ∧
      rS.market.global_orders_in_batch = 0) :=
  ⟨C5_thm.1 mS ub0 2 OrderSide.Ask 90000000 10 pS (by decide),
   C5_thm.2.1 [reqP] mS (by decide),
   C5_thm.2.2.1 mS reqFail AmmError.DustOrderTooSmall (by decide),
   C5_thm.2.2.2 mS 10 7 [bidS, askS] rS (by decide)⟩

/-- C6: settlement is at-most-once.  A second `settle_order` against the
accounts left by a successful settlement fails with
`OrderAlreadySettled` (guarded by the `claimed` flag the first
settlement set on the receipt), and applying the failed attempt to the
shared state leaves it unchanged. -/
theorem C6_thm :
    ∀ (m : Market) (bs : BatchState) (o : Order) (f : OrderFill) (k : Nat)
      (out : SettleOk) (k2 : Nat),
      settleOrder m bs o f k = .ok out →
      settleOrder out.market out.batch_state out.order out.order_fill k2 =
        .error AmmError.OrderAlreadySettled ∧
      settleStep (out.market, out.batch_state)
        { order := out.order, fill := out.order_fill, okey := k2 } =
        (out.market, out.batch_state) := by
  intro m bs o f k out k2 h
  obtain ⟨hp, hmk, hbid, hpr, hcanc, hclaim, hord, hclaimT, _, hbsm, hbsb,
    hbscp, hmp, hmkk, _⟩ := settleOrder_ok_elim h
  have hob : out.order.batch_id = o.batch_id := by rw [hord]
  have hoc : out.order.cancelled = false := by
    rw [hord]
    exact hcanc
  have h1 : settleOrder out.market out.batch_state out.order out.order_fill k2 =
      .error AmmError.OrderAlreadySettled := by
    unfold settleOrder
    rw [if_neg (by simp [hmp, hp])]
    rw [if_neg (by omega)]
    rw [if_neg (by omega)]
    rw [if_neg (by omega)]
    rw [if_neg (by simp [hoc])]
    rw [if_pos hclaimT]
  refine ⟨h1, ?_⟩
  unfold settleStep
  rw [h1]

/-- C6 (witness): the double-settlement failure at the concrete settled
bid. -/
theorem C6_witness :
    settleOrder sS.market sS.batch_state sS.order sS.order_fill 42 =
      .error AmmError.OrderAlreadySettled ∧
    settleStep (sS.market, sS.batch_state)
      { order := sS.order, fill := sS.order_fill, okey := 42 } =
      (sS.market, sS.batch_state) :=
  C6_thm rS.market rS.batch_state bidS fFresh 40 sS 42 (by decide)

/-- C10: bid admissions require a strictly positive computed quote
deposit.  (1) Every persisted bid order carries
`quote_deposit_fp = (amount * limit / PRICE_SCALE) as u64 > 0`, so
`place_order` succeeds for a bid only when the notional floor is
strictly positive.  (2) With the quote dust floor configured to 0, a
bid whose notional floors to zero passes the dust check and every cap
check (the hypotheses say those checks pass) but is rejected with
`InvalidAmount` before any order is created. -/
theorem C10_thm :
    (∀ (m : Market) (ub : UserBatchStats) (u p a : Nat) (out : PlaceOk),
      placeOrder m ub u OrderSide.Bid p a = .ok out →
      out.order.quote_deposit_fp = toU64 (a * p / PRICE_SCALE) ∧
      0 < out.order.quote_deposit_fp ∧ 0 < a * p / PRICE_SCALE) ∧
    (∀ (m : Market) (ub : UserBatchStats) (u p a : Nat),
      m.paused = false → 0 < p → 0 < a → m.min_quote_order_fp = 0 →
      a * p < U128 → a * p / PRICE_SCALE = 0 → ub.order_count = 0 →
      m.batch_notional_quote_fp < U128 →
      m.batch_notional_quote_fp ≤ m.max_notional_per_batch_quote_fp →
      0 < m.max_orders_per_user_per_batch →
      m.global_orders_in_batch < m.max_orders_global_per_batch →
      m.global_orders_in_batch + 1 < U32 →
      m.next_order_id + 1 < U64 →
      placeOrder m ub u OrderSide.Bid p a = .error AmmError.InvalidAmount) := by
  constructor
  · intro m ub u p a out h
    exact (placeOrder_ok_elim h).2.2.2.2.2.2.2.2 rfl
  · intro m ub u p a hp hpp hap hminq hmul hq0 hcnt hbn hbnle hmaxu hglob
      hglob32 hnid
    have hpne : p ≠ 0 := by omega
    have hane : a ≠ 0 := by omega
    have hnlt : ¬ (m.max_notional_per_batch_quote_fp <
        m.batch_notional_quote_fp) := by omega
    have h128 : 0 < U128 := by norm_num [U128]
    have h32 : 1 < U32 := by norm_num [U32]
    simp [placeOrder, initStats, placeFinish, checkedMul, checkedAdd, toU64,
      hp, hpne, hane, hmul, hq0, hminq, hcnt, hmaxu, hglob, hglob32, hnid,
      hnlt, hbn, h128, h32]

/-- C10 (witness): the positivity fact at a concrete admitted bid and
the concrete `InvalidAmount` rejection of a zero-notional bid with the
dust floor at 0. -/
theorem C10_witness :
    (pS10.order.quote_deposit_fp =
        toU64 (2 * 600000000 / PRICE_SCALE) ∧
      0 < pS10.order.quote_deposit_fp ∧ 0 < 2 * 600000000 / PRICE_SCALE) ∧
    placeOrder m10 ub0 2 OrderSide.Bid 1 1 = .error AmmError.InvalidAmount :=
  ⟨C10_thm.1 mS ub0 2 600000000 2 pS10 (by decide),
   C10_thm.2 m10 ub0 2 1 1 (by decide) (by decide) (by decide) (by decide)
     (by decide) (by decide) (by decide) (by decide) (by decide) (by decide)
     (by decide) (by decide) (by decide)⟩

end MicroBatchAmm
